import Mathlib

/-!
# Verification of the raqm itemization pipeline (src/raqm.c)

A shallow embedding of the complex-text layout core in `src/raqm.c`:
the script resolver with its paired-bracket stack (`_raqm_resolve_scripts`,
`_raqm_stack_*`, `get_pair_index`), the bidi-run splitter inside
`_raqm_itemize`, and the public context API (`raqm_set_text`, `raqm_layout`,
`raqm_get_glyphs`, the one-shot `raqm_shape` entry points).

External collaborators (HarfBuzz script lookup and shaping, FriBidi
embedding levels and charset conversion, the feature-string parser) are not
part of the repository; they are modelled as parameters gathered in the
`Externals` structure, so every theorem quantifies over their behaviour.
The run reordering helper (`reorder_runs.h`, included by the source but not
present in the repository) is modelled from the spec, see `reorderRuns`.

C machine integers stay well inside their ranges here (indices are array
indices; bidi levels are small non-negative values), so they are embedded
as `Nat`, with `Int` where the source genuinely uses negative sentinels
(`last_script_index`, `get_pair_index`, FriBidi's `max_level`).
-/

/-- An `hb_script_t` value: the two sentinel scripts that the resolver
propagates through, the `HB_SCRIPT_INVALID` error value, and concrete
script tags (`HB_SCRIPT_LATIN`, … — their identity is irrelevant, only
equality is used by the source). -/
inductive Script where
  | invalid : Script
  | common : Script
  | inherited : Script
  | tag : Nat → Script
deriving DecidableEq, Repr

/-- `paired_chars` from raqm.c: the 17 recognized bracket pairs, listed as
consecutive (open, close) pairs, sorted by code-point. -/
def paired_chars : List Nat :=
  [0x0028, 0x0029,
   0x003c, 0x003e,
   0x005b, 0x005d,
   0x007b, 0x007d,
   0x00ab, 0x00bb,
   0x2018, 0x2019,
   0x201c, 0x201d,
   0x2039, 0x203a,
   0x3008, 0x3009,
   0x300a, 0x300b,
   0x300c, 0x300d,
   0x300e, 0x300f,
   0x3010, 0x3011,
   0x3014, 0x3015,
   0x3016, 0x3017,
   0x3018, 0x3019,
   0x301a, 0x301b]

/-- `paired_len` from raqm.c. -/
def paired_len : Nat := 34

/-- The binary-search loop of `get_pair_index`.  The C loop keeps signed
`lower`/`upper`; they are non-negative whenever the loop body runs, so they
are embedded as `Nat`, and the one place where C would drive `upper`
negative (`upper = mid - 1` with `mid = 0`, upon which `lower <= upper`
fails and the search returns -1) exits directly.  The first argument is
fuel bounding the iteration count so that the recursion is structural; the
window `upper + 1 - lower` shrinks every iteration, so fuel `paired_len`
can never run out and the fuel-exhausted branch is unreachable. -/
def pairSearch (ch : Nat) : Nat → Nat → Nat → Int
  | 0, _, _ => -1
  | fuel + 1, lower, upper =>
      if lower ≤ upper then
        let mid := (lower + upper) / 2
        if ch < paired_chars.getD mid 0 then
          if mid = 0 then -1 else pairSearch ch fuel lower (mid - 1)
        else if paired_chars.getD mid 0 < ch then
          pairSearch ch fuel (mid + 1) upper
        else
          (mid : Int)
      else -1

/-- `get_pair_index` from raqm.c: index of `ch` in `paired_chars`, or -1. -/
def get_pair_index (ch : Nat) : Int :=
  pairSearch ch paired_len 0 (paired_len - 1)

/-- `raqm_stack_t`: the bracket stack used during script resolution.  The
two arrays are allocated with `capacity` elements; the source writes the
element at index `size` *after* incrementing it, so slot 0 is never used
and the highest slot the walk may touch is the number of pushes performed
(claim C8 is about this arithmetic). -/
structure RaqmStack where
  capacity : Nat
  size : Nat
  pair_index : List Int
  scripts : List Script
deriving Repr

/-- `_raqm_stack_new`: `malloc` leaves the array contents unspecified; they
are modelled by fixed fill values, which is sound because the walk reads a
slot only after writing it. -/
def _raqm_stack_new (max : Nat) : RaqmStack :=
  { capacity := max
    size := 0
    pair_index := List.replicate max (-1)
    scripts := List.replicate max Script.invalid }

/-- `_raqm_stack_pop`. -/
def _raqm_stack_pop (stack : RaqmStack) : Bool × RaqmStack :=
  if stack.size = 0 then (false, stack)
  else (true, { stack with size := stack.size - 1 })

/-- `_raqm_stack_top`: reads `scripts[size]`, `HB_SCRIPT_INVALID` when empty. -/
def _raqm_stack_top (stack : RaqmStack) : Script :=
  if stack.size = 0 then Script.invalid
  else stack.scripts.getD stack.size Script.invalid

/-- `_raqm_stack_push`: refuses when `size == capacity`, else increments
`size` and writes both arrays at the *new* `size`. -/
def _raqm_stack_push (stack : RaqmStack) (script : Script) (pi : Int) :
    Bool × RaqmStack :=
  if stack.size = stack.capacity then (false, stack)
  else
    (true,
     { stack with
        size := stack.size + 1
        scripts := stack.scripts.set (stack.size + 1) script
        pair_index := stack.pair_index.set (stack.size + 1) pi })

/-- The loop body of `popUntil`, with fuel bounding the iteration count so
that the recursion is structural; every iteration pops, so fuel
`stack.size` can never run out, and the fuel-exhausted case coincides with
the loop's empty-stack exit. -/
def popUntilF (pi : Int) : Nat → RaqmStack → RaqmStack
  | 0, stack => stack
  | fuel + 1, stack =>
      if stack.size = 0 then stack
      else if stack.pair_index.getD stack.size (-1) ≠ pi then
        popUntilF pi fuel (_raqm_stack_pop stack).2
      else stack

/-- The `while (STACK_IS_NOT_EMPTY && pair_index[size] != pi) pop` loop of
the close-bracket case in `_raqm_resolve_scripts`. -/
def popUntil (pi : Int) (stack : RaqmStack) : RaqmStack :=
  popUntilF pi stack.size stack

/-- The walker state of `_raqm_resolve_scripts`: the three locals plus the
stack and the script array being rewritten in place. -/
structure ResolveState where
  last_script_index : Int
  last_set_index : Int
  last_script_value : Script
  stack : RaqmStack
  scripts : List Script
deriving Repr

/-- One iteration of the `for (i = 0; i < text_len; i++)` walk of
`_raqm_resolve_scripts`, at position `i`.  `IS_OPEN(pair_index)` is
`(pair_index & 1) == 0` and the close case uses `pi = pair_index & ~1`;
`pair_index` is non-negative on those paths, so they are embedded as
`pair_index % 2 = 0` and `pair_index - pair_index % 2`. -/
def resolveStep (text : List Nat) (st : ResolveState) (i : Nat) : ResolveState :=
  if st.scripts.getD i Script.invalid = Script.common ∧ st.last_script_index ≠ -1 then
    let pair_index := get_pair_index (text.getD i 0)
    if 0 ≤ pair_index then
      if pair_index % 2 = 0 then
        -- is a paired character
        { st with
            scripts := st.scripts.set i st.last_script_value
            last_set_index := (i : Int)
            stack := (_raqm_stack_push st.stack st.last_script_value pair_index).2 }
      else
        -- is a close paired character
        let pi := pair_index - pair_index % 2
        let stack' := popUntil pi st.stack
        if stack'.size ≠ 0 then
          let top := _raqm_stack_top stack'
          { st with
              scripts := st.scripts.set i top
              last_script_value := top
              last_set_index := (i : Int)
              stack := stack' }
        else
          { st with
              scripts := st.scripts.set i st.last_script_value
              last_set_index := (i : Int)
              stack := stack' }
    else
      { st with
          scripts := st.scripts.set i st.last_script_value
          last_set_index := (i : Int) }
  else if st.scripts.getD i Script.invalid = Script.inherited ∧
      st.last_script_index ≠ -1 then
    { st with
        scripts := st.scripts.set i st.last_script_value
        last_set_index := (i : Int) }
  else
    let v := st.scripts.getD i Script.invalid
    let jstart := (st.last_set_index + 1).toNat
    { st with
        scripts := (List.range' jstart (i - jstart)).foldl
          (fun l j => l.set j v) st.scripts
        last_script_value := v
        last_script_index := (i : Int)
        last_set_index := (i : Int) }

/-- The walker state after processing positions `0 … k-1`, starting from
the freshly initialized locals and a stack of capacity `text_len`. -/
def stateAfter (text : List Nat) (init : List Script) (k : Nat) : ResolveState :=
  (List.range k).foldl (resolveStep text)
    { last_script_index := -1
      last_set_index := -1
      last_script_value := Script.invalid
      stack := _raqm_stack_new text.length
      scripts := init }

/-- The script array produced by the walk of `_raqm_resolve_scripts`, given
the initial per-scalar Unicode scripts `init` (the `hb_unicode_script`
results). -/
def resolveScripts (text : List Nat) (init : List Script) : List Script :=
  (stateAfter text init text.length).scripts

/-- `raqm_direction_t`: DEFAULT=0, LTR=1, RTL=2, TTB=3. -/
inductive Dir4 where
  | default | ltr | rtl | ttb
deriving DecidableEq, Repr

/-- The `hb_direction_t` values reachable in this source. -/
inductive HBDir where
  | ltr | rtl | ttb
deriving DecidableEq, Repr

/-- The FriBidi paragraph types used by `_raqm_itemize`
(`FRIBIDI_PAR_ON` is the auto-detect default). -/
inductive ParType where
  | ltr | rtl | on
deriving DecidableEq, Repr

/-- A FriBidi run `⟨pos, len, level⟩` as produced by `fribidi_reorder_runs`. -/
structure BidiRun where
  pos : Nat
  len : Nat
  level : Nat
deriving DecidableEq, Repr

/-- One glyph's info+position as read back from a run's `hb_buffer_t`
(`hb_glyph_info_t.codepoint/cluster` and `hb_glyph_position_t`). -/
structure RawGlyph where
  codepoint : Nat
  cluster : Nat
  x_advance : Int
  y_advance : Int
  x_offset : Int
  y_offset : Int
deriving DecidableEq, Repr

/-- `raqm_glyph_t` as filled by `raqm_get_glyphs`. -/
structure Glyph where
  index : Nat
  cluster : Nat
  x_advance : Int
  y_advance : Int
  x_offset : Int
  y_offset : Int
deriving DecidableEq, Repr

/-- Font handles (`hb_font_t*` derived from an `FT_Face`) are opaque. -/
abbrev Font := Nat

/-- Parsed `hb_feature_t` records are opaque. -/
abbrev Feature := Nat

/-- `raqm_run_t`: a shape run.  `buffer` is the `hb_buffer_t*`, `none`
until `_raqm_shape` fills it (calloc leaves it NULL). -/
structure ShapeRun where
  pos : Nat
  len : Nat
  direction : HBDir
  script : Script
  buffer : Option (List RawGlyph) := none
deriving DecidableEq, Repr

/-- The logical scalar positions a shape run covers. -/
def covered (r : ShapeRun) : List Nat := List.range' r.pos r.len

/-- `struct _raqm`: the layout context.  `text_len` is `text.length`. -/
structure Raqm where
  text : List Nat
  base_dir : Dir4
  features : List Feature
  scripts : Option (List Script)
  font : Option Font
  runs : Option (List ShapeRun)
  glyphs : Option (List Glyph)
deriving DecidableEq, Repr

/-- The arguments `_raqm_shape` passes to `hb_shape_full` for one run: the
full paragraph with the run's `⟨pos, len⟩` window, script, direction, the
context's features and font.  (The buffer's language is a constant from the
execution environment and is dropped.) -/
structure ShapeArgs where
  text : List Nat
  pos : Nat
  len : Nat
  script : Script
  direction : HBDir
  features : List Feature
  font : Option Font
deriving DecidableEq, Repr

/-- The external collaborators, as deterministic functions:

* `uniScript` — `hb_unicode_script` (code-point → script property);
* `getLevels` — `fribidi_get_bidi_types` + `fribidi_get_par_embedding_levels`,
  returning `max_level` and the per-index level it stores into the
  caller's `text_len`-element array (hence a function sampled on
  `0 … text_len-1`);
* `shaper` — `hb_shape_full` plus reading the buffer back: a status flag
  and the glyph list;
* `parseFeature` — `hb_feature_from_string` on `(string, len)`;
* `decodeUtf8` — `fribidi_charset_to_unicode` for `FRIBIDI_CHAR_SET_UTF8`. -/
structure Externals where
  uniScript : Nat → Script
  getLevels : List Nat → ParType → Int × (Nat → Nat)
  shaper : ShapeArgs → Bool × List RawGlyph
  parseFeature : String → Int → Option Feature
  decodeUtf8 : List Nat → List Nat

/-- `_raqm_resolve_scripts`: returns immediately when the context already
has a script array, otherwise initializes it from `hb_unicode_script` and
runs the walk.  The source's return value is always `true`. -/
def _raqm_resolve_scripts (ext : Externals) (rq : Raqm) : Bool × Raqm :=
  match rq.scripts with
  | some _ => (true, rq)
  | none =>
      (true, { rq with
                scripts := some (resolveScripts rq.text (rq.text.map ext.uniScript)) })

/-- `_raqm_hb_dir`: TTB paragraphs force TTB, otherwise the level's parity
decides (`FRIBIDI_LEVEL_IS_RTL`). -/
def _raqm_hb_dir (rq : Raqm) (level : Nat) : HBDir :=
  if rq.base_dir = Dir4.ttb then HBDir.ttb
  else if level % 2 = 1 then HBDir.rtl
  else HBDir.ltr

/-- The forward (LTR/TTB) splitting loop of `_raqm_itemize` over one bidi
run: `j` walks `0 … len-1`; a script change emits the current run and opens
`⟨pos+j, 1⟩`, otherwise the current run grows.  The last argument counts
the remaining iterations (`len - j`), making the recursion structural. -/
def goF (scripts : List Script) (d : HBDir) (pos : Nat)
    (cur : ShapeRun) (j : Nat) : Nat → List ShapeRun
  | 0 => [cur]
  | n + 1 =>
      let s := scripts.getD (pos + j) Script.invalid
      if s ≠ cur.script then
        cur :: goF scripts d pos { pos := pos + j, len := 1, direction := d,
                                   script := s } (j + 1) n
      else
        goF scripts d pos { cur with len := cur.len + 1 } (j + 1) n

/-- The backward (RTL) splitting loop of `_raqm_itemize` over one bidi run:
`j` walks `len-1 … 0` (visual order); growing the current run decrements
its `pos` as it increments its `len`. -/
def goB (scripts : List Script) (d : HBDir) (pos : Nat)
    (cur : ShapeRun) : Nat → List ShapeRun
  | 0 =>
      let s := scripts.getD pos Script.invalid
      if s ≠ cur.script then
        [cur, { pos := pos, len := 1, direction := d, script := s }]
      else
        [{ cur with len := cur.len + 1, pos := pos }]
  | j + 1 =>
      let s := scripts.getD (pos + (j + 1)) Script.invalid
      if s ≠ cur.script then
        cur :: goB scripts d pos { pos := pos + (j + 1), len := 1, direction := d,
                                   script := s } j
      else
        goB scripts d pos { cur with len := cur.len + 1, pos := pos + (j + 1) } j

/-- Splitting one bidi run `⟨pos, len⟩`, forward traversal: the current run
starts at `pos` with calloc's `len = 0` and the script at `pos`. -/
def splitRunFwd (scripts : List Script) (d : HBDir) (pos len : Nat) :
    List ShapeRun :=
  goF scripts d pos
    { pos := pos, len := 0, direction := d, script := scripts.getD pos Script.invalid }
    0 len

/-- Splitting one bidi run `⟨pos, len⟩`, backward traversal: the current
run starts at `pos+len-1` with calloc's `len = 0` and the script there. -/
def splitRunBwd (scripts : List Script) (d : HBDir) (pos len : Nat) :
    List ShapeRun :=
  goB scripts d pos
    { pos := pos + len - 1, len := 0, direction := d,
      script := scripts.getD (pos + len - 1) Script.invalid } (len - 1)

/-- One bidi run's shape runs: `HB_DIRECTION_IS_BACKWARD` holds exactly for
RTL among the directions this source produces. -/
def splitRun (scripts : List Script) (d : HBDir) (pos len : Nat) :
    List ShapeRun :=
  if d = HBDir.rtl then splitRunBwd scripts d pos len
  else splitRunFwd scripts d pos len

/-- Modelled from the spec: the grouping pass of the repository's
`reorder_runs.h` helper (`fribidi_reorder_runs`), which is not under src/.
§4.2: group "maximal spans of equal level" into bidi runs, in logical
order.  `spansGo` extends the current span `⟨start, count, v⟩` while the
level stays `v` and emits it on a level change. -/
def spansGo (start v count : Nat) : List Nat → List BidiRun
  | [] => [⟨start, count, v⟩]
  | x :: rest =>
      if x = v then spansGo start v (count + 1) rest
      else ⟨start, count, v⟩ :: spansGo (start + count) x 1 rest

/-- Modelled from the spec: maximal equal-level spans of a level array,
starting at position `s`. -/
def spans (s : Nat) : List Nat → List BidiRun
  | [] => []
  | v :: rest => spansGo s v 1 rest

/-- Modelled from the spec: the lowest odd embedding level present, the
lower bound of the UAX#9 rule L2 iteration the spec's visual order refers
to ("visual-order reordering over a level array"). -/
def lowestOddLevel (rs : List BidiRun) : Option Nat :=
  rs.foldr
    (fun r acc =>
      if r.level % 2 = 1 then
        some (match acc with | none => r.level | some m => min m r.level)
      else acc)
    none

/-- Modelled from the spec: one pass of UAX#9 L2 — reverse every maximal
contiguous sequence of runs whose level is ≥ `L`.  `acc` accumulates the
current such sequence in reversed order (consing reverses it). -/
def revGEGo (L : Nat) (acc : List BidiRun) : List BidiRun → List BidiRun
  | [] => acc
  | r :: rs =>
      if L ≤ r.level then revGEGo L (r :: acc) rs
      else acc ++ r :: revGEGo L [] rs

/-- Modelled from the spec: one L2 pass at threshold `L`. -/
def revGE (L : Nat) (rs : List BidiRun) : List BidiRun :=
  revGEGo L [] rs

/-- The maximum embedding level present. -/
def maxRunLevel (rs : List BidiRun) : Nat :=
  rs.foldr (fun r m => max r.level m) 0

/-- Modelled from the spec: UAX#9 rule L2 over whole runs — from the
highest level down to the lowest odd level, reverse every contiguous
sequence of runs at that level or higher.  With no odd level present
(e.g. the all-zero TTB level array) nothing is reversed. -/
def visualReorder (rs : List BidiRun) : List BidiRun :=
  match lowestOddLevel rs with
  | none => rs
  | some lo =>
      ((List.range (maxRunLevel rs + 1 - lo)).map (fun k => maxRunLevel rs - k)).foldl
        (fun acc L => revGE L acc) rs

/-- Modelled from the spec: `fribidi_reorder_runs` — the visual-order bidi
run list for a level array (§4.2, data model §3: "the list of bidi runs
produced is in *visual* order"). -/
def reorderRuns (levels : List Nat) : List BidiRun :=
  visualReorder (spans 0 levels)

/-- The level-array computation at the top of `_raqm_itemize`: TTB
paragraphs get `max_level = 0` and a zeroed level array (the `memset`
branch); otherwise FriBidi computes paragraph embedding levels for the
paragraph type derived from `base_dir`. -/
def _raqm_itemize_levels (ext : Externals) (rq : Raqm) : Int × List Nat :=
  if rq.base_dir = Dir4.ttb then
    (0, List.replicate rq.text.length 0)
  else
    let par_type :=
      if rq.base_dir = Dir4.rtl then ParType.rtl
      else if rq.base_dir = Dir4.ltr then ParType.ltr
      else ParType.on
    let (max_level, f) := ext.getLevels rq.text par_type
    (max_level, (List.range rq.text.length).map f)

/-- `_raqm_itemize`: levels, bidi runs, script resolution, then the split
of every bidi run on script boundaries.  `rq->runs` is only assigned when
it was NULL (`if (rq->runs == NULL) rq->runs = run;`), so a context that
already has a run list keeps its old one. -/
def _raqm_itemize (ext : Externals) (rq : Raqm) : Bool × Raqm :=
  let (max_level, levels) := _raqm_itemize_levels ext rq
  if max_level < 0 then (false, rq)
  else
    let bruns := reorderRuns levels
    let rq₁ := (_raqm_resolve_scripts ext rq).2
    let scripts := rq₁.scripts.getD []
    let newRuns := bruns.flatMap
      (fun r => splitRun scripts (_raqm_hb_dir rq₁ r.level) r.pos r.len)
    (true, { rq₁ with runs := some (rq₁.runs.getD newRuns) })

/-- The per-run buffer fill of `_raqm_shape`: create the buffer, add the
paragraph with the run's window, set script/direction, shape.  Everything
but `buffer` is left alone. -/
def setBuf (ext : Externals) (text : List Nat) (features : List Feature)
    (font : Option Font) (run : ShapeRun) : ShapeRun :=
  { run with
      buffer := some (ext.shaper
        { text := text, pos := run.pos, len := run.len, script := run.script,
          direction := run.direction, features := features, font := font }).2 }

/-- `_raqm_shape`: fills every run's buffer.  The source discards
`hb_shape_full`'s status and always returns `true`. -/
def _raqm_shape (ext : Externals) (rq : Raqm) : Bool × Raqm :=
  (true, { rq with
            runs := rq.runs.map (List.map (setBuf ext rq.text rq.features rq.font)) })

/-- `raqm_create`. -/
def raqm_create : Raqm :=
  { text := [], base_dir := Dir4.default, features := [], scripts := none,
    font := none, runs := none, glyphs := none }

/-- `raqm_set_text` on a non-NULL context: frees and replaces the text
buffer and length, touching nothing else. -/
def raqm_set_text (rq : Raqm) (text : List Nat) : Raqm :=
  { rq with text := text }

/-- `raqm_set_par_direction` on a non-NULL context. -/
def raqm_set_par_direction (rq : Raqm) (dir : Dir4) : Raqm :=
  { rq with base_dir := dir }

/-- `raqm_add_font_feature`.  The context parameter is the C pointer: the
source parses first and then, on success, dereferences `rq` *without a
NULL check* (`rq->features_len++`); `none` as a result marks that fault.
On a parse failure the context is untouched and `false` returned. -/
def raqm_add_font_feature (ext : Externals) (rq : Option Raqm)
    (feature : String) (len : Int) : Option (Option Raqm × Bool) :=
  match ext.parseFeature feature len with
  | none => some (rq, false)
  | some fea =>
      match rq with
      | none => none
      | some r => some (some { r with features := r.features ++ [fea] }, true)

/-- `raqm_set_freetype_face` on a non-NULL context: guarded by
`text_len == 0 || start >= text_len`; single-font build (`RAQM_MULTI_FONT`
is not defined), so the truncated `len` only bounds the range argument and
the sole font is replaced. -/
def raqm_set_freetype_face (rq : Raqm) (face : Font) (start _len : Nat) : Raqm :=
  if rq.text.length = 0 ∨ start ≥ rq.text.length then rq
  else { rq with font := some face }

/-- `raqm_layout` on a non-NULL context: empty text fails, then itemize,
then shape. -/
def raqm_layout (ext : Externals) (rq : Raqm) : Bool × Raqm :=
  if rq.text.length = 0 then (false, rq)
  else
    let (ok₁, rq₁) := _raqm_itemize ext rq
    if !ok₁ then (false, rq₁)
    else
      let (ok₂, rq₂) := _raqm_shape ext rq₁
      if !ok₂ then (false, rq₂)
      else (true, rq₂)

/-- `raqm_get_glyphs` on a non-NULL context: concatenates every run
buffer's glyph infos and positions into a fresh `rq->glyphs` array and
returns it. -/
def raqm_get_glyphs (rq : Raqm) : List Glyph × Raqm :=
  let glyphs :=
    (rq.runs.getD []).flatMap
      (fun run => (run.buffer.getD []).map
        (fun g => { index := g.codepoint, cluster := g.cluster,
                    x_advance := g.x_advance, y_advance := g.y_advance,
                    x_offset := g.x_offset, y_offset := g.y_offset : Glyph }))
  (glyphs, { rq with glyphs := some glyphs })

/-- Modelled from the spec: the byte sequence FriBidi's UTF-8 charset
writer emits for one Unicode scalar (§4.6's "byte-oriented transformation
format"). -/
def utf8Encode (c : Nat) : List Nat :=
  if c < 0x80 then [c]
  else if c < 0x800 then
    [0xC0 + c / 0x40, 0x80 + c % 0x40]
  else if c < 0x10000 then
    [0xE0 + c / 0x1000, 0x80 + c / 0x40 % 0x40, 0x80 + c % 0x40]
  else
    [0xF0 + c / 0x40000, 0x80 + c / 0x1000 % 0x40, 0x80 + c / 0x40 % 0x40,
     0x80 + c % 0x40]

/-- `_raqm_utf32_to_utf8_index`: re-encode the scalar prefix `[0, index)`
with `fribidi_unicode_to_charset (FRIBIDI_CHAR_SET_UTF8, …)` and return
the byte length it reports. -/
def _raqm_utf32_to_utf8_index (unicode : List Nat) (index : Nat) : Nat :=
  ((unicode.take index).flatMap utf8Encode).length

/-- `raqm_shape_u32`: the scalar-sequence one-shot entry point, run against
a fresh context (including the source's duplicated
`raqm_set_freetype_face` call).  On layout failure `*info` stays NULL and
the count is 0. -/
def raqm_shape_u32 (ext : Externals) (text : List Nat) (face : Font)
    (direction : Dir4) (features : List String) : Nat × List Glyph :=
  let rq := raqm_create
  let rq := raqm_set_text rq text
  let rq := raqm_set_par_direction rq direction
  let rq := raqm_set_freetype_face rq face 0 text.length
  let rq := raqm_set_freetype_face rq face 0 text.length
  let rq := features.foldl
    (fun r f =>
      match ext.parseFeature f (-1) with
      | none => r
      | some fea => { r with features := r.features ++ [fea] })
    rq
  let (ok, rq) := raqm_layout ext rq
  if ok then
    let (glyphs, _) := raqm_get_glyphs rq
    (glyphs.length, glyphs)
  else (0, [])

/-- `raqm_shape`: the byte-oriented one-shot entry point — decode to
UTF-32, run `raqm_shape_u32`, then remap every cluster from scalar index
to byte index with `_raqm_utf32_to_utf8_index`. -/
def raqm_shape (ext : Externals) (u8_str : List Nat) (face : Font)
    (direction : Dir4) (features : List String) : Nat × List Glyph :=
  let u32_str := ext.decodeUtf8 u8_str
  let (glyph_count, info) := raqm_shape_u32 ext u32_str face direction features
  (glyph_count,
   info.map (fun g => { g with cluster := _raqm_utf32_to_utf8_index u32_str g.cluster }))

/-! ## List and stack helper lemmas -/

/-- Does the resolver walk perform a stack push when it processes position
`k`?  This is exactly the guard of the `IS_OPEN` branch: a Common script at
`k`, an established `last_script_index`, and an open paired character. -/
def pushOccurs (text : List Nat) (init : List Script) (k : Nat) : Bool :=
  decide ((stateAfter text init k).scripts.getD k Script.invalid = Script.common) &&
  decide ((stateAfter text init k).last_script_index ≠ -1) &&
  decide (0 ≤ get_pair_index (text.getD k 0)) &&
  decide (get_pair_index (text.getD k 0) % 2 = 0)

/-- Does the resolver walk, at position `i`, take the close-bracket path
*and* find a matching opener on the stack?  (In that case the source adopts
the matched opener's script instead of `last_script_value`.) -/
def adoptsMatchedOpener (text : List Nat) (init : List Script) (i : Nat) : Prop :=
  (stateAfter text init i).scripts.getD i Script.invalid = Script.common ∧
  (stateAfter text init i).last_script_index ≠ -1 ∧
  0 ≤ get_pair_index (text.getD i 0) ∧
  ¬ get_pair_index (text.getD i 0) % 2 = 0 ∧
  (popUntil
      (get_pair_index (text.getD i 0) - get_pair_index (text.getD i 0) % 2)
      (stateAfter text init i).stack).size ≠ 0

instance (text : List Nat) (init : List Script) (i : Nat) :
    Decidable (adoptsMatchedOpener text init i) := by
  unfold adoptsMatchedOpener
  infer_instance

/-- A concrete externals bundle whose feature parser accepts everything
(used only for C6). -/
def extC6 : Externals :=
  { uniScript := fun _ => Script.tag 1
    getLevels := fun _ _ => (0, fun _ => 0)
    shaper := fun _ => (true, [])
    parseFeature := fun _ _ => some 0
    decodeUtf8 := fun l => l }

/-- A concrete externals bundle whose shaper always reports failure
(used only for C5). -/
def extC5 : Externals :=
  { uniScript := fun _ => Script.tag 1
    getLevels := fun _ _ => (0, fun _ => 0)
    shaper := fun _ => (false, [])
    parseFeature := fun _ _ => none
    decodeUtf8 := fun l => l }

/-- A concrete externals bundle (used only for C10). -/
def extC10 : Externals :=
  { uniScript := fun _ => Script.tag 9
    getLevels := fun _ _ => (0, fun _ => 0)
    shaper := fun _ => (true, [])
    parseFeature := fun _ _ => none
    decodeUtf8 := fun l => l }

/-- The all-zero glyph, used as a `getD` fallback. -/
def glyph0 : Glyph := { index := 0, cluster := 0, x_advance := 0, y_advance := 0,
                        x_offset := 0, y_offset := 0 }

/-- A concrete externals bundle (used only for C9): the decoder yields the
two scalars `א a` (2-byte and 1-byte in UTF-8) and the shaper emits one
glyph per run whose cluster is the run's last scalar index. -/
def extC9 : Externals :=
  { uniScript := fun _ => Script.tag 5
    getLevels := fun _ _ => (0, fun _ => 0)
    shaper := fun args => (true,
      [{ codepoint := 7, cluster := args.pos + args.len - 1, x_advance := 10,
         y_advance := 0, x_offset := 0, y_offset := 0 }])
    parseFeature := fun _ _ => none
    decodeUtf8 := fun _ => [0x5D0, 97] }

/-- The logical scalar positions a bidi run covers. -/
def coveredB (r : BidiRun) : List Nat := List.range' r.pos r.len

/-- A concrete externals bundle with a mixed-direction level array
(used only for C1). -/
def extC1 : Externals :=
  { uniScript := fun c => if c < 0x100 then Script.tag 1 else Script.tag 2
    getLevels := fun _ _ => (1, fun i => if i = 1 then 1 else 0)
    shaper := fun _ => (true, [])
    parseFeature := fun _ _ => none
    decodeUtf8 := fun l => l }

/-- A concrete externals bundle (used only for C7). -/
def extC7 : Externals :=
  { uniScript := fun c => if c < 0x100 then Script.tag 1 else Script.tag 2
    getLevels := fun _ _ => (-1, fun _ => 0)
    shaper := fun _ => (true, [])
    parseFeature := fun _ _ => none
    decodeUtf8 := fun l => l }

/-- The concrete TTB context used by C7's witness. -/
def rqC7 : Raqm :=
  { raqm_create with text := [97, 0x5D0, 0x5D1], base_dir := Dir4.ttb }

/-- Externals for C4's witness: one glyph per shaped run, carrying the run
start as its cluster. -/
def extC4 : Externals :=
  { uniScript := fun _ => Script.tag 3
    getLevels := fun _ _ => (0, fun _ => 0)
    shaper := fun a => (true, [{ codepoint := 7, cluster := a.pos,
                                 x_advance := 10, y_advance := 0,
                                 x_offset := 0, y_offset := 0 }])
    parseFeature := fun _ _ => none
    decodeUtf8 := fun l => l }

/-- The concrete context used by C4's witness. -/
def rqC4 : Raqm := { raqm_create with text := [97, 98] }

lemma getD_set_self {α : Type} (l : List α) (k : Nat) (v d : α) (h : k < l.length) :
    (l.set k v).getD k d = v := by
  simp [List.getD, List.getElem?_set, h]

lemma getD_set_ne {α : Type} (l : List α) {i j : Nat} (v d : α) (h : i ≠ j) :
    (l.set i v).getD j d = l.getD j d := by
  simp [List.getD, List.getElem?_set, h]

lemma foldl_set_length {α : Type} (js : List Nat) (v : α) :
    ∀ l : List α, (js.foldl (fun l j => l.set j v) l).length = l.length := by
  induction js with
  | nil => intro l; rfl
  | cons j js ih => intro l; simp [ih]

lemma popUntilF_size_le (pi : Int) :
    ∀ fuel stack, (popUntilF pi fuel stack).size ≤ stack.size := by
  intro fuel
  induction fuel with
  | zero => intro stack; exact le_refl _
  | succ fuel ih =>
      intro stack
      unfold popUntilF
      split
      · exact le_refl _
      · split
        · have h := ih (_raqm_stack_pop stack).2
          have : (_raqm_stack_pop stack).2.size ≤ stack.size := by
            simp [_raqm_stack_pop]
            split <;> simp
          omega
        · exact le_refl _

lemma popUntil_size_le (pi : Int) (stack : RaqmStack) :
    (popUntil pi stack).size ≤ stack.size :=
  popUntilF_size_le pi stack.size stack

/-! ## Characterizations of the resolver's branches -/

lemma resolveStep_else (text : List Nat) (st : ResolveState) (i : Nat)
    (hset : st.last_set_index = (i : Int) - 1)
    (h1 : ¬(st.scripts.getD i Script.invalid = Script.common ∧
            st.last_script_index ≠ -1))
    (h2 : ¬(st.scripts.getD i Script.invalid = Script.inherited ∧
            st.last_script_index ≠ -1)) :
    resolveStep text st i =
      { st with
          last_script_value := st.scripts.getD i Script.invalid
          last_script_index := (i : Int)
          last_set_index := (i : Int) } := by
  unfold resolveStep
  rw [if_neg h1, if_neg h2]
  have hj : ((st.last_set_index + 1).toNat) = i := by
    rw [hset]; omega
  simp [hj]

lemma resolveStep_opener (text : List Nat) (st : ResolveState) (i : Nat)
    (hc : st.scripts.getD i Script.invalid = Script.common)
    (hl : st.last_script_index ≠ -1)
    (hge : 0 ≤ get_pair_index (text.getD i 0))
    (hev : get_pair_index (text.getD i 0) % 2 = 0) :
    resolveStep text st i =
      { st with
          scripts := st.scripts.set i st.last_script_value
          last_set_index := (i : Int)
          stack := (_raqm_stack_push st.stack st.last_script_value
            (get_pair_index (text.getD i 0))).2 } := by
  unfold resolveStep
  rw [if_pos ⟨hc, hl⟩, if_pos hge, if_pos hev]

lemma resolveStep_closer (text : List Nat) (st : ResolveState) (i : Nat)
    (hc : st.scripts.getD i Script.invalid = Script.common)
    (hl : st.last_script_index ≠ -1)
    (hge : 0 ≤ get_pair_index (text.getD i 0))
    (hod : ¬ get_pair_index (text.getD i 0) % 2 = 0) :
    resolveStep text st i =
      (if (popUntil (get_pair_index (text.getD i 0) -
            get_pair_index (text.getD i 0) % 2) st.stack).size ≠ 0 then
         { st with
            scripts := st.scripts.set i (_raqm_stack_top
              (popUntil (get_pair_index (text.getD i 0) -
                get_pair_index (text.getD i 0) % 2) st.stack))
            last_script_value := _raqm_stack_top
              (popUntil (get_pair_index (text.getD i 0) -
                get_pair_index (text.getD i 0) % 2) st.stack)
            last_set_index := (i : Int)
            stack := popUntil (get_pair_index (text.getD i 0) -
              get_pair_index (text.getD i 0) % 2) st.stack }
       else
         { st with
            scripts := st.scripts.set i st.last_script_value
            last_set_index := (i : Int)
            stack := popUntil (get_pair_index (text.getD i 0) -
              get_pair_index (text.getD i 0) % 2) st.stack }) := by
  unfold resolveStep
  rw [if_pos ⟨hc, hl⟩, if_pos hge, if_neg hod]

lemma popUntil_singleton_hit (pi : Int) (stack : RaqmStack)
    (h1 : stack.size = 1)
    (h2 : stack.pair_index.getD stack.size (-1) = pi) :
    popUntil pi stack = stack := by
  unfold popUntil
  rw [h1]
  unfold popUntilF
  split_ifs with ha hb
  · rfl
  · exact absurd h2 hb
  · rfl

lemma resolveStep_common_nopair (text : List Nat) (st : ResolveState) (i : Nat)
    (hc : st.scripts.getD i Script.invalid = Script.common)
    (hl : st.last_script_index ≠ -1)
    (hlt : ¬ 0 ≤ get_pair_index (text.getD i 0)) :
    resolveStep text st i =
      { st with
          scripts := st.scripts.set i st.last_script_value
          last_set_index := (i : Int) } := by
  unfold resolveStep
  rw [if_pos ⟨hc, hl⟩, if_neg hlt]

lemma resolveStep_inherited (text : List Nat) (st : ResolveState) (i : Nat)
    (hc : st.scripts.getD i Script.invalid = Script.inherited)
    (hl : st.last_script_index ≠ -1) :
    resolveStep text st i =
      { st with
          scripts := st.scripts.set i st.last_script_value
          last_set_index := (i : Int) } := by
  unfold resolveStep
  have h1 : ¬(st.scripts.getD i Script.invalid = Script.common ∧
      st.last_script_index ≠ -1) := by
    rw [hc]; simp
  rw [if_neg h1, if_pos ⟨hc, hl⟩]

/-! ## Invariants of the resolver walk -/

lemma stateAfter_zero (text : List Nat) (init : List Script) :
    stateAfter text init 0 =
      { last_script_index := -1, last_set_index := -1,
        last_script_value := Script.invalid,
        stack := _raqm_stack_new text.length, scripts := init } := rfl

lemma stateAfter_succ (text : List Nat) (init : List Script) (k : Nat) :
    stateAfter text init (k + 1) =
      resolveStep text (stateAfter text init k) k := by
  simp [stateAfter, List.range_succ]

lemma resolveStep_lastSet (text : List Nat) (st : ResolveState) (i : Nat) :
    (resolveStep text st i).last_set_index = (i : Int) := by
  unfold resolveStep
  dsimp only
  split_ifs <;> rfl

lemma resolveStep_scriptsLen (text : List Nat) (st : ResolveState) (i : Nat) :
    (resolveStep text st i).scripts.length = st.scripts.length := by
  unfold resolveStep
  dsimp only
  split_ifs <;> simp [foldl_set_length]

lemma lastSet_eq (text : List Nat) (init : List Script) :
    ∀ k, (stateAfter text init k).last_set_index = (k : Int) - 1 := by
  intro k
  induction k with
  | zero => rfl
  | succ k _ =>
      rw [stateAfter_succ, resolveStep_lastSet]
      omega

lemma scriptsLen_eq (text : List Nat) (init : List Script) :
    ∀ k, (stateAfter text init k).scripts.length = init.length := by
  intro k
  induction k with
  | zero => rfl
  | succ k ih =>
      rw [stateAfter_succ, resolveStep_scriptsLen]
      exact ih

lemma resolveStep_scripts_cases (text : List Nat) (st : ResolveState) (i : Nat)
    (hset : st.last_set_index = (i : Int) - 1) :
    (resolveStep text st i).scripts = st.scripts ∨
    ∃ v, (resolveStep text st i).scripts = st.scripts.set i v := by
  unfold resolveStep
  dsimp only
  have hj : ((st.last_set_index + 1).toNat) = i := by rw [hset]; omega
  split_ifs
  · exact Or.inr ⟨_, rfl⟩
  · exact Or.inr ⟨_, rfl⟩
  · exact Or.inr ⟨_, rfl⟩
  · exact Or.inr ⟨_, rfl⟩
  · exact Or.inr ⟨_, rfl⟩
  · left
    simp [hj]

lemma getD_future (text : List Nat) (init : List Script) :
    ∀ k j, k ≤ j →
      (stateAfter text init k).scripts.getD j Script.invalid =
        init.getD j Script.invalid := by
  intro k
  induction k with
  | zero => intro j _; rfl
  | succ k ih =>
      intro j hj
      rw [stateAfter_succ]
      rcases resolveStep_scripts_cases text (stateAfter text init k) k
          (lastSet_eq text init k) with h | ⟨v, h⟩
      · rw [h]; exact ih j (by omega)
      · rw [h, getD_set_ne _ _ _ (by omega : k ≠ j)]
        exact ih j (by omega)

lemma getD_frozen (text : List Nat) (init : List Script) :
    ∀ j k, j < k →
      (stateAfter text init k).scripts.getD j Script.invalid =
        (stateAfter text init (j + 1)).scripts.getD j Script.invalid := by
  intro j k
  induction k with
  | zero => intro h; omega
  | succ k ih =>
      intro h
      by_cases hk : j + 1 = k + 1
      · rw [hk]
      · have hjk : j < k := by omega
        rw [stateAfter_succ]
        rcases resolveStep_scripts_cases text (stateAfter text init k) k
            (lastSet_eq text init k) with hs | ⟨v, hs⟩
        · rw [hs]; exact ih hjk
        · rw [hs, getD_set_ne _ _ _ (by omega : k ≠ j)]
          exact ih hjk

lemma lsv_eq (text : List Nat) (init : List Script) :
    ∀ k, 1 ≤ k → k ≤ init.length →
      (stateAfter text init k).last_script_index ≠ -1 ∧
      (stateAfter text init k).last_script_value =
        (stateAfter text init k).scripts.getD (k - 1) Script.invalid := by
  intro k
  induction k with
  | zero => intro h; omega
  | succ k ih =>
      intro _ hlen
      by_cases hk0 : k = 0
      · subst hk0
        rw [stateAfter_succ, resolveStep_else text _ 0 rfl (by simp [stateAfter_zero])
          (by simp [stateAfter_zero])]
        exact ⟨by simp, rfl⟩
      · have hk1 : 1 ≤ k := by omega
        obtain ⟨hlsi, hlsv⟩ := ih hk1 (by omega)
        have hklen : k < (stateAfter text init k).scripts.length := by
          rw [scriptsLen_eq]; omega
        rw [stateAfter_succ]
        by_cases hc : (stateAfter text init k).scripts.getD k Script.invalid =
            Script.common
        · by_cases hge : 0 ≤ get_pair_index (text.getD k 0)
          · by_cases hev : get_pair_index (text.getD k 0) % 2 = 0
            · rw [resolveStep_opener text _ k hc hlsi hge hev]
              exact ⟨hlsi, (getD_set_self _ _ _ _ hklen).symm⟩
            · rw [resolveStep_closer text _ k hc hlsi hge hev]
              split_ifs
              · exact ⟨hlsi, (getD_set_self _ _ _ _ hklen).symm⟩
              · exact ⟨hlsi, (getD_set_self _ _ _ _ hklen).symm⟩
          · rw [resolveStep_common_nopair text _ k hc hlsi hge]
            exact ⟨hlsi, (getD_set_self _ _ _ _ hklen).symm⟩
        · by_cases hi : (stateAfter text init k).scripts.getD k Script.invalid =
              Script.inherited
          · rw [resolveStep_inherited text _ k hi hlsi]
            exact ⟨hlsi, (getD_set_self _ _ _ _ hklen).symm⟩
          · rw [resolveStep_else text _ k (lastSet_eq text init k)
              (fun hh => (hc hh.1).elim) (fun hh => (hi hh.1).elim)]
            exact ⟨by simp, rfl⟩

lemma resolveStep_stack_size (text : List Nat) (st : ResolveState) (i : Nat) :
    (resolveStep text st i).stack.size ≤ st.stack.size + 1 := by
  unfold resolveStep
  dsimp only
  split_ifs
  · simp [_raqm_stack_push]
    split_ifs <;> simp
  · have := popUntil_size_le
      (get_pair_index (text.getD i 0) - get_pair_index (text.getD i 0) % 2) st.stack
    simpa using Nat.le_succ_of_le this
  · have := popUntil_size_le
      (get_pair_index (text.getD i 0) - get_pair_index (text.getD i 0) % 2) st.stack
    simpa using Nat.le_succ_of_le this
  · simp
  · simp
  · simp

lemma resolveStep_stack_of_first (text : List Nat) (st : ResolveState) (i : Nat)
    (h : st.last_script_index = -1) :
    (resolveStep text st i).stack = st.stack := by
  unfold resolveStep
  dsimp only
  have h1 : ¬(st.scripts.getD i Script.invalid = Script.common ∧
      st.last_script_index ≠ -1) := fun hh => hh.2 h
  have h2 : ¬(st.scripts.getD i Script.invalid = Script.inherited ∧
      st.last_script_index ≠ -1) := fun hh => hh.2 h
  rw [if_neg h1, if_neg h2]

lemma popUntilF_arrays (pi : Int) :
    ∀ fuel stack, (popUntilF pi fuel stack).pair_index = stack.pair_index ∧
      (popUntilF pi fuel stack).scripts = stack.scripts ∧
      (popUntilF pi fuel stack).capacity = stack.capacity := by
  intro fuel
  induction fuel with
  | zero => intro stack; exact ⟨rfl, rfl, rfl⟩
  | succ fuel ih =>
      intro stack
      unfold popUntilF
      split
      · exact ⟨rfl, rfl, rfl⟩
      · split
        · have h := ih (_raqm_stack_pop stack).2
          simpa [_raqm_stack_pop, *] using h
        · exact ⟨rfl, rfl, rfl⟩

lemma popUntil_arrays (pi : Int) (stack : RaqmStack) :
    (popUntil pi stack).pair_index = stack.pair_index ∧
    (popUntil pi stack).scripts = stack.scripts ∧
    (popUntil pi stack).capacity = stack.capacity :=
  popUntilF_arrays pi stack.size stack

lemma resolveStep_stack_arrays (text : List Nat) (st : ResolveState) (i : Nat) :
    (resolveStep text st i).stack.pair_index.length = st.stack.pair_index.length ∧
    (resolveStep text st i).stack.scripts.length = st.stack.scripts.length ∧
    (resolveStep text st i).stack.capacity = st.stack.capacity := by
  unfold resolveStep
  dsimp only
  split_ifs
  · simp only [_raqm_stack_push]
    split_ifs <;> simp
  · obtain ⟨h1, h2, h3⟩ := popUntil_arrays
      (get_pair_index (text.getD i 0) - get_pair_index (text.getD i 0) % 2) st.stack
    exact ⟨congrArg List.length h1, congrArg List.length h2, h3⟩
  · obtain ⟨h1, h2, h3⟩ := popUntil_arrays
      (get_pair_index (text.getD i 0) - get_pair_index (text.getD i 0) % 2) st.stack
    exact ⟨congrArg List.length h1, congrArg List.length h2, h3⟩
  · exact ⟨rfl, rfl, rfl⟩
  · exact ⟨rfl, rfl, rfl⟩
  · exact ⟨rfl, rfl, rfl⟩

lemma stack_arrays_len (text : List Nat) (init : List Script) :
    ∀ k, (stateAfter text init k).stack.pair_index.length = text.length ∧
      (stateAfter text init k).stack.scripts.length = text.length ∧
      (stateAfter text init k).stack.capacity = text.length := by
  intro k
  induction k with
  | zero => simp [stateAfter_zero, _raqm_stack_new]
  | succ k ih =>
      rw [stateAfter_succ]
      obtain ⟨h1, h2, h3⟩ := resolveStep_stack_arrays text (stateAfter text init k) k
      exact ⟨h1.trans ih.1, h2.trans ih.2.1, h3.trans ih.2.2⟩

lemma stack_size_le (text : List Nat) (init : List Script) :
    ∀ k, (stateAfter text init k).stack.size ≤ k - 1 := by
  intro k
  induction k with
  | zero => simp [stateAfter_zero, _raqm_stack_new]
  | succ k ih =>
      by_cases hk0 : k = 0
      · subst hk0
        rw [stateAfter_succ, resolveStep_stack_of_first text _ 0 rfl]
        simp [stateAfter_zero, _raqm_stack_new]
      · rw [stateAfter_succ]
        have h := resolveStep_stack_size text (stateAfter text init k) k
        omega

/-- C8: for a paragraph of length N, the bracket stack (capacity N) never
overflows during the resolution walk — whenever the walk pushes at position
`k`, the written slot `size + 1` lies strictly below N, which is the length
of both allocated arrays — and `_raqm_stack_push` on a full stack changes
nothing and returns `false`. -/
theorem C8_bracket_stack_safe (text : List Nat) (init : List Script) (k : Nat)
    (hk : k < text.length) (hp : pushOccurs text init k = true) :
    ((stateAfter text init k).stack.size + 1 < text.length ∧
     (stateAfter text init k).stack.pair_index.length = text.length ∧
     (stateAfter text init k).stack.scripts.length = text.length) ∧
    (∀ stack s pi, stack.size = stack.capacity →
      _raqm_stack_push stack s pi = (false, stack)) := by
  refine ⟨⟨?_, (stack_arrays_len text init k).1, (stack_arrays_len text init k).2.1⟩,
    fun stack s pi h => by simp [_raqm_stack_push, h]⟩
  rcases Nat.eq_zero_or_pos k with rfl | hpos
  · have h0 : (stateAfter text init 0).last_script_index = -1 := rfl
    simp [pushOccurs, h0] at hp
  · have := stack_size_le text init k
    omega

/-- Witness for C8 at a concrete input: text `a ( b` with scripts
Latin-Common-Latin; position 1 pushes and the written slot is in bounds. -/
theorem C8_bracket_stack_safe_witness :
    (1 < ([97, 40, 98] : List Nat).length ∧
     pushOccurs [97, 40, 98] [Script.tag 1, Script.common, Script.tag 1] 1 = true) ∧
    (((stateAfter [97, 40, 98] [Script.tag 1, Script.common, Script.tag 1] 1).stack.size + 1 <
        ([97, 40, 98] : List Nat).length ∧
      (stateAfter [97, 40, 98] [Script.tag 1, Script.common, Script.tag 1] 1).stack.pair_index.length =
        ([97, 40, 98] : List Nat).length ∧
      (stateAfter [97, 40, 98] [Script.tag 1, Script.common, Script.tag 1] 1).stack.scripts.length =
        ([97, 40, 98] : List Nat).length) ∧
     (∀ stack s pi, stack.size = stack.capacity →
       _raqm_stack_push stack s pi = (false, stack))) :=
  ⟨⟨by decide, by decide⟩,
   C8_bracket_stack_safe [97, 40, 98] [Script.tag 1, Script.common, Script.tag 1] 1
     (by decide) (by decide)⟩

lemma final_getD_zero (text : List Nat) (init : List Script) :
    (resolveScripts text init).getD 0 Script.invalid = init.getD 0 Script.invalid := by
  unfold resolveScripts
  cases hN : text.length with
  | zero => rfl
  | succ n =>
      rw [getD_frozen text init 0 (n + 1) (by omega), stateAfter_succ,
        resolveStep_else text _ 0 rfl (by simp [stateAfter_zero]) (by simp [stateAfter_zero])]
      rfl

/-- C3, counterexample: on the paragraph `, a` (scripts Common, Latin) the
resolver leaves position 0 at Common — the source's walk handles a leading
Common scalar in the concrete-script branch (setting `last_set_index = 0`),
so the later concrete scalar backfills nothing; position 0 does *not*
receive the script of the first subsequent concrete scalar and the Common
sentinel survives in the final array. -/
theorem C3_counterexample :
    resolveScripts [44, 97] [Script.common, Script.tag 1] =
      [Script.common, Script.tag 1] ∧
    (resolveScripts [44, 97] [Script.common, Script.tag 1]).getD 0 Script.invalid ≠
      Script.tag 1 ∧
    Script.common ∈ resolveScripts [44, 97] [Script.common, Script.tag 1] := by
  decide

/-- C3, amended: a Common or Inherited scalar at position `i > 0` resolves
to the resolved script of position `i−1` *unless* the walk takes the
close-bracket path at `i` and finds a matching opener (then it adopts the
matched opener's script); a Common/Inherited scalar at position 0 keeps its
initial script — there is no retroactive propagation from the first
concrete scalar, so the sentinel may survive in the final array. -/
theorem C3_propagation_amended (text : List Nat) (init : List Script)
    (hlen : init.length = text.length) (i : Nat) (hi : i < text.length) :
    (0 < i →
      (init.getD i Script.invalid = Script.common ∨
       init.getD i Script.invalid = Script.inherited) →
      ¬ adoptsMatchedOpener text init i →
      (resolveScripts text init).getD i Script.invalid =
        (resolveScripts text init).getD (i - 1) Script.invalid) ∧
    ((init.getD 0 Script.invalid = Script.common ∨
      init.getD 0 Script.invalid = Script.inherited) →
      (resolveScripts text init).getD 0 Script.invalid =
        init.getD 0 Script.invalid) := by
  constructor
  · intro hpos hci hadopt
    have hfin_i : (resolveScripts text init).getD i Script.invalid =
        (stateAfter text init (i + 1)).scripts.getD i Script.invalid := by
      unfold resolveScripts
      exact getD_frozen text init i text.length hi
    have hfin_p : (resolveScripts text init).getD (i - 1) Script.invalid =
        (stateAfter text init i).scripts.getD (i - 1) Script.invalid := by
      unfold resolveScripts
      have h := getD_frozen text init (i - 1) text.length (by omega)
      have he : i - 1 + 1 = i := by omega
      rw [he] at h
      exact h
    rw [hfin_i, hfin_p, stateAfter_succ]
    obtain ⟨hlsi, hlsv⟩ := lsv_eq text init i (by omega) (by omega)
    have hcur : (stateAfter text init i).scripts.getD i Script.invalid =
        init.getD i Script.invalid := getD_future text init i i (le_refl i)
    have hilen : i < (stateAfter text init i).scripts.length := by
      rw [scriptsLen_eq]; omega
    rcases hci with hc | hinh
    · have hcur' : (stateAfter text init i).scripts.getD i Script.invalid =
          Script.common := hcur.trans hc
      by_cases hge : 0 ≤ get_pair_index (text.getD i 0)
      · by_cases hev : get_pair_index (text.getD i 0) % 2 = 0
        · rw [resolveStep_opener text _ i hcur' hlsi hge hev]
          exact (getD_set_self _ _ _ _ hilen).trans hlsv
        · have hsz : (popUntil
              (get_pair_index (text.getD i 0) - get_pair_index (text.getD i 0) % 2)
              (stateAfter text init i).stack).size = 0 := by
            by_contra hne
            exact hadopt ⟨hcur', hlsi, hge, hev, hne⟩
          rw [resolveStep_closer text _ i hcur' hlsi hge hev]
          rw [if_neg (by simpa using hsz)]
          exact (getD_set_self _ _ _ _ hilen).trans hlsv
      · rw [resolveStep_common_nopair text _ i hcur' hlsi hge]
        exact (getD_set_self _ _ _ _ hilen).trans hlsv
    · have hcur' : (stateAfter text init i).scripts.getD i Script.invalid =
          Script.inherited := hcur.trans hinh
      rw [resolveStep_inherited text _ i hcur' hlsi]
      exact (getD_set_self _ _ _ _ hilen).trans hlsv
  · intro _
    exact final_getD_zero text init

/-- Witness for the amended C3 at a concrete input: in `a ,` (scripts
Latin, Common) the Common scalar at position 1 resolves to the resolved
script of position 0. -/
theorem C3_propagation_amended_witness :
    (resolveScripts [97, 44] [Script.tag 1, Script.common]).getD 1 Script.invalid =
      (resolveScripts [97, 44] [Script.tag 1, Script.common]).getD 0 Script.invalid :=
  (C3_propagation_amended [97, 44] [Script.tag 1, Script.common] rfl 1 (by decide)).1
    (by decide) (by decide) (by decide)

/-! ## Claims about the context API -/

/-- C6: `raqm_add_font_feature` parses first and then increments
`rq->features_len` without a NULL check; with a NULL context and a feature
the parser accepts, the C code dereferences NULL (the model's `none`
result) instead of being a silent no-op.  With a feature the parser
rejects it happens to return `false` without touching the context, because
the dereference is unreachable. -/
theorem C6_null_add_feature_faults :
    raqm_add_font_feature extC6 none "dlig" (-1) = none ∧
    raqm_add_font_feature
      { extC6 with parseFeature := fun _ _ => none } none "bad" (-1) =
      some (none, false) :=
  ⟨rfl, rfl⟩

/-- C5, counterexample: the shaper reports an error on every run, yet
`raqm_layout` returns success — `_raqm_shape` discards `hb_shape_full`'s
status. -/
theorem C5_counterexample :
    (∀ args, (extC5.shaper args).1 = false) ∧
    (raqm_layout extC5 { raqm_create with text := [97] }).1 = true :=
  ⟨fun _ => rfl, by decide⟩

/-- C5, amended: `_raqm_shape` always returns `true` — the shaping
backend's per-run status is discarded — so layout's result does not depend
on shaper errors at all: it succeeds exactly when the text is non-empty
and the bidi stage reports a non-negative `max_level`, and whatever the
shaper produced (including partial or empty output) is surfaced. -/
theorem C5_shaping_failure_ignored (ext : Externals) (rq : Raqm) :
    (_raqm_shape ext rq).1 = true ∧
    ((raqm_layout ext rq).1 = true ↔
      (rq.text.length ≠ 0 ∧ ¬ (_raqm_itemize_levels ext rq).1 < 0)) := by
  refine ⟨rfl, ?_⟩
  rcases hpair : _raqm_itemize_levels ext rq with ⟨ml, lv⟩
  simp only [raqm_layout, _raqm_itemize, _raqm_shape, hpair]
  split_ifs <;> simp_all

/-- Witness for the amended C5 at a concrete input. -/
theorem C5_shaping_failure_ignored_witness :
    (_raqm_shape extC5 { raqm_create with text := [97] }).1 = true ∧
    ((raqm_layout extC5 { raqm_create with text := [97] }).1 = true ↔
      (({ raqm_create with text := [97] } : Raqm).text.length ≠ 0 ∧
       ¬ (_raqm_itemize_levels extC5 { raqm_create with text := [97] }).1 < 0)) :=
  C5_shaping_failure_ignored extC5 { raqm_create with text := [97] }

lemma itemize_scripts_of_some (ext : Externals) (rq : Raqm) (s : List Script)
    (hs : rq.scripts = some s) :
    ((_raqm_itemize ext rq).2).scripts = some s := by
  rcases hpair : _raqm_itemize_levels ext rq with ⟨ml, lv⟩
  simp only [_raqm_itemize, _raqm_resolve_scripts, hpair, hs]
  split_ifs <;> simp [hs]

lemma layout_scripts_of_some (ext : Externals) (rq : Raqm) (s : List Script)
    (hs : rq.scripts = some s) :
    ((raqm_layout ext rq).2).scripts = some s := by
  have hit := itemize_scripts_of_some ext rq s hs
  simp only [raqm_layout]
  split_ifs <;> first | exact hs | exact hit

/-- C10: `raqm_set_text` on a valid context replaces only the text buffer
and length; the previously computed script array, run list and glyph array
are untouched, `_raqm_resolve_scripts` returns immediately because a
script array is already present, and a subsequent `raqm_layout` keeps the
stale script values computed from the earlier text. -/
theorem C10_set_text_keeps_stale_scripts (ext : Externals) (rq : Raqm)
    (t : List Nat) (s : List Script) (hs : rq.scripts = some s) :
    (raqm_set_text rq t).text = t ∧
    (raqm_set_text rq t).scripts = rq.scripts ∧
    (raqm_set_text rq t).runs = rq.runs ∧
    (raqm_set_text rq t).glyphs = rq.glyphs ∧
    (raqm_set_text rq t).base_dir = rq.base_dir ∧
    (raqm_set_text rq t).features = rq.features ∧
    (raqm_set_text rq t).font = rq.font ∧
    _raqm_resolve_scripts ext (raqm_set_text rq t) = (true, raqm_set_text rq t) ∧
    ((raqm_layout ext (raqm_set_text rq t)).2).scripts = some s := by
  refine ⟨rfl, rfl, rfl, rfl, rfl, rfl, rfl, ?_, ?_⟩
  · simp [_raqm_resolve_scripts, raqm_set_text, hs]
  · exact layout_scripts_of_some ext _ s (by simp [raqm_set_text, hs])

/-- Witness for C10 at a concrete input: a context whose script array was
already computed (a single Latin-tagged entry) keeps it across
`set_text` + `layout` even though the new text has two scalars. -/
theorem C10_set_text_keeps_stale_scripts_witness :
    ((raqm_layout extC10
        (raqm_set_text { raqm_create with text := [97], scripts := some [Script.tag 1] }
          [98, 99])).2).scripts = some [Script.tag 1] :=
  (C10_set_text_keeps_stale_scripts extC10
    { raqm_create with text := [97], scripts := some [Script.tag 1] }
    [98, 99] [Script.tag 1] rfl).2.2.2.2.2.2.2.2

/-! ## Claim C2: bracket pairs -/

lemma getD_replicate {α : Type} (n i : Nat) (a d : α) (h : i < n) :
    (List.replicate n a).getD i d = a := by
  simp [List.getD, List.getElem?_replicate, h]

/-- The binary search finds every table entry at its own index. -/
lemma pair_table_lookup :
    ∀ j, j < 34 → get_pair_index (paired_chars.getD j 0) = (j : Int) := by
  decide

/-- A maximal segment of concrete (neither Common nor Inherited) scripts:
positions `k0 … k0+m-1` all take the plain else-branch, which only moves
the three locals along (the backfill loop is dead, see `lastSet_eq`). -/
lemma concrete_run (text : List Nat) (init : List Script) :
    ∀ m k0, 1 ≤ m →
      (∀ t, t < m →
        (stateAfter text init k0).scripts.getD (k0 + t) Script.invalid ≠ Script.common ∧
        (stateAfter text init k0).scripts.getD (k0 + t) Script.invalid ≠ Script.inherited) →
      stateAfter text init (k0 + m) =
        { last_script_index := ((k0 + m - 1 : Nat) : Int)
          last_set_index := ((k0 + m - 1 : Nat) : Int)
          last_script_value :=
            (stateAfter text init k0).scripts.getD (k0 + m - 1) Script.invalid
          stack := (stateAfter text init k0).stack
          scripts := (stateAfter text init k0).scripts } := by
  intro m
  induction m with
  | zero => intro k0 h; omega
  | succ m ih =>
      intro k0 _ hconc
      by_cases hm0 : m = 0
      · subst hm0
        have h0 := hconc 0 (by omega)
        rw [stateAfter_succ,
          resolveStep_else text _ k0 (lastSet_eq text init k0)
            (fun hh => (h0.1 (by simpa using hh.1)).elim)
            (fun hh => (h0.2 (by simpa using hh.1)).elim)]
        simp
      · have hm1 : 1 ≤ m := by omega
        have ihm := ih k0 hm1 (fun t ht => hconc t (by omega))
        have hstep := hconc m (by omega)
        have he : k0 + (m + 1) - 1 = k0 + m := by omega
        rw [show k0 + (m + 1) = (k0 + m) + 1 by omega, stateAfter_succ, ihm]
        rw [resolveStep_else text _ (k0 + m)
          (by simp; omega)
          (fun hh => (hstep.1 (by simpa using hh.1)).elim)
          (fun hh => (hstep.2 (by simpa using hh.1)).elim)]
        simp [he]

/-- C2, counterexample: in X·(·F·)·X (scripts tag 1 around, tag 2 inside a
recognized `()` pair at positions 1 and 3), script resolution assigns the
*surrounding* script tag 1, not the foreign script tag 2, to both the
opener and the closer: the opener is assigned `last_script` (the script
seen *before* it) and pushed with it, and the closer adopts that pushed
script. -/
theorem C2_counterexample :
    (resolveScripts [100, 40, 200, 41, 100]
        [Script.tag 1, Script.common, Script.tag 2, Script.common,
         Script.tag 1]).getD 1 Script.invalid ≠ Script.tag 2 ∧
    (resolveScripts [100, 40, 200, 41, 100]
        [Script.tag 1, Script.common, Script.tag 2, Script.common,
         Script.tag 1]).getD 1 Script.invalid = Script.tag 1 ∧
    (resolveScripts [100, 40, 200, 41, 100]
        [Script.tag 1, Script.common, Script.tag 2, Script.common,
         Script.tag 1]).getD 3 Script.invalid = Script.tag 1 := by
  decide

/-- C2, amended: for every paragraph X-text · OPEN · t · CLOSE · X-text
(OPEN/CLOSE a recognized pair with Common script, t of concrete script F,
the non-empty surrounding text of concrete script X ≠ F), script
resolution assigns the *surrounding* script X to both the opener and the
closer positions: at the opener `last_script` is X, which is assigned and
pushed; the closer finds that entry (its pair index matches) and adopts X. -/
theorem C2_bracket_symmetry_amended
    (A T B : List Nat) (a b : Nat) (k : Nat) (X F : Script)
    (hk : k < 17)
    (ha : a = paired_chars.getD (2 * k) 0)
    (hb : b = paired_chars.getD (2 * k + 1) 0)
    (hp : 1 ≤ A.length) (hq : 1 ≤ T.length)
    (hX1 : X ≠ Script.common) (hX2 : X ≠ Script.inherited)
    (hF1 : F ≠ Script.common) (hF2 : F ≠ Script.inherited)
    (hFX : F ≠ X) :
    (resolveScripts (A ++ a :: (T ++ b :: B))
        (List.replicate A.length X ++ Script.common ::
          (List.replicate T.length F ++ Script.common ::
            List.replicate B.length X))).getD A.length Script.invalid = X ∧
    (resolveScripts (A ++ a :: (T ++ b :: B))
        (List.replicate A.length X ++ Script.common ::
          (List.replicate T.length F ++ Script.common ::
            List.replicate B.length X))).getD
      (A.length + T.length + 1) Script.invalid = X := by
  set p := A.length with hpdef
  set q := T.length with hqdef
  set r := B.length with hrdef
  set text := A ++ a :: (T ++ b :: B) with htext
  set init := List.replicate p X ++ Script.common ::
    (List.replicate q F ++ Script.common :: List.replicate r X) with hinit
  have htl : text.length = p + q + r + 2 := by simp [htext]; omega
  have hil : init.length = p + q + r + 2 := by simp [hinit]; omega
  -- the initial script at each region
  have hinitA : ∀ j, j < p → init.getD j Script.invalid = X := by
    intro j hj
    rw [hinit, List.getD_append _ _ _ _ (by simpa using hj)]
    exact getD_replicate _ _ _ _ hj
  have hinitp : init.getD p Script.invalid = Script.common := by
    rw [hinit, List.getD_append_right _ _ _ _ (by simp)]
    simp
  have hinitT : ∀ t, t < q → init.getD (p + 1 + t) Script.invalid = F := by
    intro t ht
    rw [hinit, List.getD_append_right _ _ _ _ (by simp; omega)]
    have he : p + 1 + t - (List.replicate p X).length = t + 1 := by simp; omega
    rw [he, List.getD_cons_succ, List.getD_append _ _ _ _ (by simpa using ht)]
    exact getD_replicate _ _ _ _ ht
  have hinitc : init.getD (p + q + 1) Script.invalid = Script.common := by
    rw [hinit, List.getD_append_right _ _ _ _ (by simp; omega)]
    have he : p + q + 1 - (List.replicate p X).length = q + 1 := by simp; omega
    rw [he, List.getD_cons_succ, List.getD_append_right _ _ _ _ (by simp)]
    simp
  -- the text at the two bracket positions
  have htexta : text.getD p 0 = a := by
    rw [htext, List.getD_append_right _ _ _ _ (by simp [hpdef])]
    simp [hpdef]
  have htextb : text.getD (p + q + 1) 0 = b := by
    rw [htext, List.getD_append_right _ _ _ _ (by simp [hpdef]; omega)]
    have he : p + q + 1 - A.length = q + 1 := by omega
    rw [he, List.getD_cons_succ, List.getD_append_right _ _ _ _ (by simp [hqdef])]
    simp [hqdef]
  -- 1. the X prefix: all concrete, state moves along with lsv = X
  have hconcA : ∀ t, t < p →
      (stateAfter text init 0).scripts.getD (0 + t) Script.invalid ≠ Script.common ∧
      (stateAfter text init 0).scripts.getD (0 + t) Script.invalid ≠ Script.inherited := by
    intro t ht
    have : (stateAfter text init 0).scripts.getD (0 + t) Script.invalid = X := by
      show init.getD (0 + t) Script.invalid = X
      rw [Nat.zero_add]
      exact hinitA t ht
    rw [this]
    exact ⟨hX1, hX2⟩
  have hSp := concrete_run text init p 0 hp hconcA
  rw [Nat.zero_add] at hSp
  have hSp_scripts : (stateAfter text init p).scripts = init := by rw [hSp]; rfl
  have hSp_stack : (stateAfter text init p).stack = _raqm_stack_new text.length := by
    rw [hSp]; rfl
  have hSp_lsv : (stateAfter text init p).last_script_value = X := by
    rw [hSp]
    show init.getD (p - 1) Script.invalid = X
    exact hinitA (p - 1) (by omega)
  have hSp_lsi : (stateAfter text init p).last_script_index ≠ -1 := by
    rw [hSp]
    simp
  -- 2. the opener step
  have hpr : get_pair_index (text.getD p 0) = ((2 * k : Nat) : Int) := by
    rw [htexta, ha]
    exact pair_table_lookup (2 * k) (by omega)
  have hge : 0 ≤ get_pair_index (text.getD p 0) := by rw [hpr]; omega
  have hev : get_pair_index (text.getD p 0) % 2 = 0 := by
    rw [hpr]
    omega
  have hc : (stateAfter text init p).scripts.getD p Script.invalid = Script.common := by
    rw [hSp_scripts]; exact hinitp
  have hP1 := stateAfter_succ text init p
  rw [resolveStep_opener text _ p hc hSp_lsi hge hev] at hP1
  have hN0 : ¬ (0 = text.length) := by omega
  have hpush : (_raqm_stack_push (stateAfter text init p).stack
      (stateAfter text init p).last_script_value
      (get_pair_index (text.getD p 0))).2 =
      { capacity := text.length, size := 1,
        pair_index := (List.replicate text.length (-1)).set 1 ((2 * k : Nat) : Int),
        scripts := (List.replicate text.length Script.invalid).set 1 X } := by
    rw [hSp_stack, hSp_lsv, hpr]
    simp [_raqm_stack_push, _raqm_stack_new, hN0]
  have hP1_scripts : (stateAfter text init (p + 1)).scripts = init.set p X := by
    rw [hP1]
    simp [hSp_scripts, hSp_lsv]
  have hP1_stack : (stateAfter text init (p + 1)).stack =
      { capacity := text.length, size := 1,
        pair_index := (List.replicate text.length (-1)).set 1 ((2 * k : Nat) : Int),
        scripts := (List.replicate text.length Script.invalid).set 1 X } := by
    rw [hP1]
    simpa using hpush
  -- 3. the foreign-script segment
  have hconcT : ∀ t, t < q →
      (stateAfter text init (p + 1)).scripts.getD (p + 1 + t) Script.invalid ≠
        Script.common ∧
      (stateAfter text init (p + 1)).scripts.getD (p + 1 + t) Script.invalid ≠
        Script.inherited := by
    intro t ht
    have : (stateAfter text init (p + 1)).scripts.getD (p + 1 + t) Script.invalid
        = F := by
      rw [hP1_scripts, getD_set_ne _ _ _ (by omega : p ≠ p + 1 + t)]
      exact hinitT t ht
    rw [this]
    exact ⟨hF1, hF2⟩
  have hSq := concrete_run text init q (p + 1) hq hconcT
  have hSq_scripts : (stateAfter text init (p + 1 + q)).scripts = init.set p X := by
    rw [hSq]
    exact hP1_scripts
  have hSq_stack : (stateAfter text init (p + 1 + q)).stack =
      { capacity := text.length, size := 1,
        pair_index := (List.replicate text.length (-1)).set 1 ((2 * k : Nat) : Int),
        scripts := (List.replicate text.length Script.invalid).set 1 X } := by
    rw [hSq]
    exact hP1_stack
  have hSq_lsi : (stateAfter text init (p + 1 + q)).last_script_index ≠ -1 := by
    rw [hSq]
    show ¬ ((p + 1 + q - 1 : Nat) : Int) = -1
    omega
  -- 4. the closer step
  have hidx : p + 1 + q = p + q + 1 := by omega
  rw [hidx] at hSq_scripts hSq_stack hSq_lsi
  have hpr2 : get_pair_index (text.getD (p + q + 1) 0) = ((2 * k + 1 : Nat) : Int) := by
    rw [htextb, hb]
    exact pair_table_lookup (2 * k + 1) (by omega)
  have hge2 : 0 ≤ get_pair_index (text.getD (p + q + 1) 0) := by rw [hpr2]; omega
  have hodd : ¬ get_pair_index (text.getD (p + q + 1) 0) % 2 = 0 := by
    rw [hpr2]
    omega
  have hc2 : (stateAfter text init (p + q + 1)).scripts.getD (p + q + 1)
      Script.invalid = Script.common := by
    rw [hSq_scripts, getD_set_ne _ _ _ (by omega : p ≠ p + q + 1)]
    exact hinitc
  have hP2 := stateAfter_succ text init (p + q + 1)
  rw [resolveStep_closer text _ (p + q + 1) hc2 hSq_lsi hge2 hodd] at hP2
  have hone : (1 : Nat) < text.length := by omega
  have hpd1 : ((List.replicate text.length (-1)).set 1 ((2 * k : Nat) : Int)).getD 1
      (-1) = ((2 * k : Nat) : Int) := by
    apply getD_set_self
    simpa using hone
  have hpi : get_pair_index (text.getD (p + q + 1) 0) -
      get_pair_index (text.getD (p + q + 1) 0) % 2 = ((2 * k : Nat) : Int) := by
    rw [hpr2]
    omega
  have hpop : popUntil (get_pair_index (text.getD (p + q + 1) 0) -
      get_pair_index (text.getD (p + q + 1) 0) % 2)
      (stateAfter text init (p + q + 1)).stack =
      (stateAfter text init (p + q + 1)).stack := by
    rw [hpi]
    apply popUntil_singleton_hit
    · rw [hSq_stack]
    · rw [hSq_stack]
      exact hpd1
  have hsz : ((stateAfter text init (p + q + 1)).stack).size ≠ 0 := by
    rw [hSq_stack]
    simp
  have htop : _raqm_stack_top ((stateAfter text init (p + q + 1)).stack) = X := by
    rw [hSq_stack]
    show ((List.replicate text.length Script.invalid).set 1 X).getD 1 Script.invalid = X
    apply getD_set_self
    simpa using hone
  rw [hpop] at hP2
  rw [if_pos hsz] at hP2
  have hP2_scripts : (stateAfter text init (p + q + 2)).scripts =
      (init.set p X).set (p + q + 1) X := by
    rw [hP2]
    simp [hSq_scripts, htop]
  -- 5. read the two positions off the final array
  constructor
  · show (stateAfter text init text.length).scripts.getD p Script.invalid = X
    rw [getD_frozen text init p text.length (by omega), stateAfter_succ]
    calc (resolveStep text (stateAfter text init p) p).scripts.getD p Script.invalid
        = ((stateAfter text init p).scripts.set p
            (stateAfter text init p).last_script_value).getD p Script.invalid := by
          rw [resolveStep_opener text _ p hc hSp_lsi hge hev]
      _ = X := by
          rw [hSp_lsv]
          apply getD_set_self
          rw [scriptsLen_eq]
          omega
  · show (stateAfter text init text.length).scripts.getD (p + q + 1)
        Script.invalid = X
    rw [getD_frozen text init (p + q + 1) text.length (by omega)]
    have he2 : p + q + 1 + 1 = p + q + 2 := by omega
    rw [he2, hP2_scripts]
    apply getD_set_self
    simp [hil]
    omega

/-- Witness for the amended C2 at a concrete input: `X ( F ) X` with the
`(`/`)` pair (pair family 0); both bracket positions resolve to the
surrounding script tag 1. -/
theorem C2_bracket_symmetry_amended_witness :
    (resolveScripts [97, 40, 98, 41, 99]
        [Script.tag 1, Script.common, Script.tag 2, Script.common,
         Script.tag 1]).getD 1 Script.invalid = Script.tag 1 ∧
    (resolveScripts [97, 40, 98, 41, 99]
        [Script.tag 1, Script.common, Script.tag 2, Script.common,
         Script.tag 1]).getD 3 Script.invalid = Script.tag 1 :=
  C2_bracket_symmetry_amended [97] [98] [99] 40 41 0 (Script.tag 1) (Script.tag 2)
    (by decide) (by decide) (by decide) (by decide) (by decide)
    (by decide) (by decide) (by decide) (by decide) (by decide)

/-! ## Claim C9: byte-oriented cluster remapping -/

/-- C9: for the byte-oriented one-shot entry point, every returned glyph's
cluster equals the byte length of the UTF-8 re-encoding of the scalar
prefix `[0, c)` of the decoded text, where `c` is the scalar-index cluster
the scalar-sequence entry point produced for that glyph. -/
theorem C9_cluster_remap (ext : Externals) (u8 : List Nat) (face : Font)
    (dir : Dir4) (features : List String) (j : Nat)
    (hj : j < (raqm_shape ext u8 face dir features).2.length) :
    ((raqm_shape ext u8 face dir features).2.getD j glyph0).cluster =
      (((ext.decodeUtf8 u8).take
          (((raqm_shape_u32 ext (ext.decodeUtf8 u8) face dir features).2.getD j
            glyph0).cluster)).flatMap utf8Encode).length := by
  have hj' : j <
      (raqm_shape_u32 ext (ext.decodeUtf8 u8) face dir features).2.length := by
    simpa [raqm_shape] using hj
  simp only [raqm_shape]
  rw [List.getD_eq_getElem _ _ (by simpa using hj'),
    List.getD_eq_getElem _ _ hj', List.getElem_map]
  rfl

/-- Witness for C9 at a concrete input: scalar cluster 1 remaps to byte
index 2, the UTF-8 length of the 2-byte scalar `א` before it. -/
theorem C9_cluster_remap_witness :
    (0 < (raqm_shape extC9 [1, 2, 3] 7 Dir4.default []).2.length) ∧
    ((raqm_shape extC9 [1, 2, 3] 7 Dir4.default []).2.getD 0 glyph0).cluster =
      (((extC9.decodeUtf8 [1, 2, 3]).take
          (((raqm_shape_u32 extC9 (extC9.decodeUtf8 [1, 2, 3]) 7 Dir4.default
            []).2.getD 0 glyph0).cluster)).flatMap utf8Encode).length :=
  ⟨by decide, C9_cluster_remap extC9 [1, 2, 3] 7 Dir4.default [] 0 (by decide)⟩

/-! ## Coverage of the run splitter (claims C1, C7) -/

lemma goF_covered (scripts : List Script) (d : HBDir) (pos : Nat) :
    ∀ n cur j, cur.pos + cur.len = pos + j →
      (goF scripts d pos cur j n).flatMap covered =
        List.range' cur.pos (cur.len + n) := by
  intro n
  induction n with
  | zero =>
      intro cur j _
      simp [goF, covered]
  | succ n ih =>
      intro cur j hinv
      unfold goF
      dsimp only
      split_ifs
      · have h1 := ih (⟨pos + j, 1, d,
          scripts.getD (pos + j) Script.invalid, none⟩ : ShapeRun) (j + 1) rfl
        simp only [List.flatMap_cons, h1]
        have h2 : pos + j = cur.pos + cur.len := hinv.symm
        rw [covered, h2, List.range'_append_1]
        congr 1
        omega
      · have h1 := ih { cur with len := cur.len + 1 } (j + 1)
          (by show cur.pos + (cur.len + 1) = pos + (j + 1); omega)
        rw [h1]
        show List.range' cur.pos (cur.len + 1 + n) = List.range' cur.pos (cur.len + (n + 1))
        congr 1
        omega

lemma goB_covered (scripts : List Script) (d : HBDir) (pos : Nat) :
    ∀ j cur, cur.pos = pos + j + 1 →
      ((goB scripts d pos cur j).flatMap covered).Perm
        (List.range' pos (j + 1 + cur.len)) := by
  intro j
  induction j with
  | zero =>
      intro cur hinv
      unfold goB
      dsimp only
      split_ifs
      · simp only [List.flatMap_cons, List.flatMap_nil, List.append_nil, covered, hinv]
        have h2 : List.range' pos (0 + 1 + cur.len) =
            List.range' pos 1 ++ List.range' (pos + 1) cur.len := by
          rw [List.range'_append_1]
          congr 1
          omega
        rw [h2]
        exact List.perm_append_comm
      · simp only [List.flatMap_cons, List.flatMap_nil, List.append_nil, covered]
        have h2 : (0 : Nat) + 1 + cur.len = cur.len + 1 := by omega
        rw [h2]
  | succ j ih =>
      intro cur hinv
      unfold goB
      dsimp only
      split_ifs
      · have h1 := ih (⟨pos + (j + 1), 1, d,
          scripts.getD (pos + (j + 1)) Script.invalid, none⟩ : ShapeRun) rfl
        simp only [List.flatMap_cons]
        have h2 : List.range' pos (j + 1 + 1 + cur.len) =
            List.range' pos (j + 1 + 1) ++ List.range' (pos + (j + 1 + 1)) cur.len := by
          rw [List.range'_append_1]
          congr 1
          omega
        have h3 : covered cur = List.range' (pos + (j + 1 + 1)) cur.len := by
          rw [covered, hinv]
          congr 1
        rw [h2, h3]
        exact (List.Perm.append_left _ h1).trans List.perm_append_comm
      · have h1 := ih { cur with len := cur.len + 1, pos := pos + (j + 1) } rfl
        refine h1.trans ?_
        show (List.range' pos (j + 1 + (cur.len + 1))).Perm
          (List.range' pos (j + 1 + 1 + cur.len))
        have h2 : j + 1 + (cur.len + 1) = j + 1 + 1 + cur.len := by omega
        rw [h2]

/-- The first iteration of the backward loop always extends the fresh
zero-length run (its script was read from the same position), after which
`goB_covered` applies. -/
lemma goB_covered_start (scripts : List Script) (d : HBDir) (pos : Nat) :
    ∀ j, ((goB scripts d pos
        (⟨pos + j, 0, d, scripts.getD (pos + j) Script.invalid, none⟩ : ShapeRun)
        j).flatMap covered).Perm (List.range' pos (j + 1)) := by
  intro j
  cases j with
  | zero =>
      unfold goB
      dsimp only
      split_ifs with hcon
      · simp at hcon
      · simp [covered]
  | succ j =>
      unfold goB
      dsimp only
      split_ifs with hcon
      · simp at hcon
      · have h1 := goB_covered scripts d pos j
          (⟨pos + (j + 1), 0 + 1, d,
            scripts.getD (pos + (j + 1)) Script.invalid, none⟩ : ShapeRun) rfl
        exact h1

lemma splitRunBwd_covered (scripts : List Script) (d : HBDir) (pos len : Nat)
    (h : 1 ≤ len) :
    ((splitRunBwd scripts d pos len).flatMap covered).Perm (List.range' pos len) := by
  obtain ⟨m, rfl⟩ : ∃ m, len = m + 1 := ⟨len - 1, by omega⟩
  have h1 := goB_covered_start scripts d pos m
  have he : pos + (m + 1) - 1 = pos + m := by omega
  unfold splitRunBwd
  rw [he]
  exact h1

lemma splitRunFwd_covered (scripts : List Script) (d : HBDir) (pos len : Nat) :
    (splitRunFwd scripts d pos len).flatMap covered = List.range' pos len := by
  have h := goF_covered scripts d pos len
    (⟨pos, 0, d, scripts.getD pos Script.invalid, none⟩ : ShapeRun) 0 (by simp)
  simpa [splitRunFwd] using h

lemma splitRun_covered (scripts : List Script) (d : HBDir) (pos len : Nat)
    (h : 1 ≤ len) :
    ((splitRun scripts d pos len).flatMap covered).Perm (List.range' pos len) := by
  unfold splitRun
  split_ifs
  · exact splitRunBwd_covered scripts d pos len h
  · rw [splitRunFwd_covered]

lemma spansGo_covered :
    ∀ (l : List Nat) (start v c : Nat),
      (spansGo start v c l).flatMap coveredB = List.range' start (c + l.length) := by
  intro l
  induction l with
  | nil =>
      intro start v c
      simp [spansGo, coveredB]
  | cons x rest ih =>
      intro start v c
      unfold spansGo
      split_ifs
      · rw [ih]
        congr 1
        simp
        omega
      · simp only [List.flatMap_cons, ih]
        rw [coveredB, List.range'_append_1]
        congr 1
        simp
        omega

lemma spansGo_len_pos :
    ∀ (l : List Nat) (start v c : Nat), 1 ≤ c →
      ∀ r ∈ spansGo start v c l, 1 ≤ r.len := by
  intro l
  induction l with
  | nil =>
      intro start v c hc r hr
      simp [spansGo] at hr
      subst hr
      exact hc
  | cons x rest ih =>
      intro start v c hc r hr
      unfold spansGo at hr
      split_ifs at hr
      · exact ih start v (c + 1) (by omega) r hr
      · rcases List.mem_cons.mp hr with rfl | hr'
        · exact hc
        · exact ih (start + c) x 1 (le_refl 1) r hr'

lemma spans_covered (s : Nat) (levels : List Nat) :
    (spans s levels).flatMap coveredB = List.range' s levels.length := by
  cases levels with
  | nil => simp [spans]
  | cons v rest =>
      unfold spans
      rw [spansGo_covered]
      congr 1
      simp
      omega

lemma spans_len_pos (s : Nat) (levels : List Nat) :
    ∀ r ∈ spans s levels, 1 ≤ r.len := by
  cases levels with
  | nil => simp [spans]
  | cons v rest =>
      intro r hr
      exact spansGo_len_pos rest s v 1 (le_refl 1) r hr

lemma revGEGo_perm (L : Nat) :
    ∀ (l acc : List BidiRun), (revGEGo L acc l).Perm (acc ++ l) := by
  intro l
  induction l with
  | nil => intro acc; simp [revGEGo]
  | cons r rs ih =>
      intro acc
      unfold revGEGo
      split_ifs
      · refine (ih (r :: acc)).trans ?_
        exact List.perm_middle.symm
      · refine List.Perm.append_left acc (List.Perm.cons r ?_)
        simpa using ih []

lemma revGE_perm (L : Nat) (rs : List BidiRun) : (revGE L rs).Perm rs := by
  simpa using revGEGo_perm L rs []

lemma foldl_revGE_perm :
    ∀ (Ls : List Nat) (acc : List BidiRun),
      ((Ls.foldl (fun acc L => revGE L acc) acc)).Perm acc := by
  intro Ls
  induction Ls with
  | nil => intro acc; simp
  | cons L Ls ih =>
      intro acc
      exact (ih (revGE L acc)).trans (revGE_perm L acc)

lemma visualReorder_perm (rs : List BidiRun) : (visualReorder rs).Perm rs := by
  unfold visualReorder
  cases lowestOddLevel rs with
  | none => simp
  | some lo => exact foldl_revGE_perm _ rs

lemma reorderRuns_perm (levels : List Nat) :
    (reorderRuns levels).Perm (spans 0 levels) :=
  visualReorder_perm (spans 0 levels)

lemma flatMap_perm_congr {α β : Type} (l : List α) (f g : α → List β)
    (h : ∀ a ∈ l, (f a).Perm (g a)) : (l.flatMap f).Perm (l.flatMap g) :=
  List.Perm.flatMap_left l h

/-! ## Structure of a successful layout (claims C1, C4, C5, C7) -/

lemma layout_ok_iff (ext : Externals) (rq : Raqm) :
    (raqm_layout ext rq).1 = true ↔
      (rq.text.length ≠ 0 ∧ ¬ (_raqm_itemize_levels ext rq).1 < 0) := by
  rcases hpair : _raqm_itemize_levels ext rq with ⟨ml, lv⟩
  simp only [raqm_layout, _raqm_itemize, _raqm_shape, hpair]
  split_ifs <;> simp_all

lemma resolve_preserves (ext : Externals) (rq : Raqm) :
    ((_raqm_resolve_scripts ext rq).2).text = rq.text ∧
    ((_raqm_resolve_scripts ext rq).2).base_dir = rq.base_dir ∧
    ((_raqm_resolve_scripts ext rq).2).features = rq.features ∧
    ((_raqm_resolve_scripts ext rq).2).font = rq.font ∧
    ((_raqm_resolve_scripts ext rq).2).runs = rq.runs ∧
    ((_raqm_resolve_scripts ext rq).2).glyphs = rq.glyphs := by
  unfold _raqm_resolve_scripts
  cases hs : rq.scripts <;> simp

lemma itemize_levels_length (ext : Externals) (rq : Raqm) :
    (_raqm_itemize_levels ext rq).2.length = rq.text.length := by
  unfold _raqm_itemize_levels
  by_cases h : rq.base_dir = Dir4.ttb
  · simp [h]
  · rw [if_neg h]
    dsimp only
    rcases hg : ext.getLevels rq.text
      (if rq.base_dir = Dir4.rtl then ParType.rtl
       else if rq.base_dir = Dir4.ltr then ParType.ltr else ParType.on) with ⟨ml, f⟩
    simp [hg]

lemma itemize_runs_of_none (ext : Externals) (rq : Raqm)
    (hruns : rq.runs = none)
    (hml : ¬ (_raqm_itemize_levels ext rq).1 < 0) :
    ((_raqm_itemize ext rq).2).runs =
      some ((reorderRuns (_raqm_itemize_levels ext rq).2).flatMap
        (fun r => splitRun (((_raqm_resolve_scripts ext rq).2).scripts.getD [])
          (_raqm_hb_dir ((_raqm_resolve_scripts ext rq).2) r.level) r.pos r.len)) := by
  have hr : ((_raqm_resolve_scripts ext rq).2).runs = none :=
    (resolve_preserves ext rq).2.2.2.2.1.trans hruns
  rcases hpair : _raqm_itemize_levels ext rq with ⟨ml, lv⟩
  rw [hpair] at hml
  simp only [_raqm_itemize, hpair]
  rw [if_neg (by simpa using hml)]
  simp [hr]

lemma shape_runs_eq (ext : Externals) (rq : Raqm) :
    ((_raqm_shape ext rq).2).runs =
      rq.runs.map (List.map (setBuf ext rq.text rq.features rq.font)) := rfl

lemma layout_state_of_ok (ext : Externals) (rq : Raqm)
    (hok : (raqm_layout ext rq).1 = true) :
    (raqm_layout ext rq).2 = (_raqm_shape ext ((_raqm_itemize ext rq).2)).2 := by
  by_cases h0 : rq.text.length = 0
  · simp [raqm_layout, h0] at hok
  · cases hb : (_raqm_itemize ext rq).1 with
    | false =>
        exfalso
        simp [raqm_layout, h0, hb] at hok
    | true =>
        simp [raqm_layout, h0, hb, _raqm_shape]

lemma covered_setBuf (ext : Externals) (t : List Nat) (fs : List Feature)
    (fo : Option Font) (r : ShapeRun) : covered (setBuf ext t fs fo r) = covered r := rfl

lemma flatMap_covered_map_setBuf (ext : Externals) (t : List Nat)
    (fs : List Feature) (fo : Option Font) (l : List ShapeRun) :
    ((l.map (setBuf ext t fs fo)).flatMap covered) = l.flatMap covered := by
  rw [List.flatMap_map]
  rfl

lemma flatMap_covered_length (l : List ShapeRun) :
    (l.flatMap covered).length = (l.map ShapeRun.len).sum := by
  induction l with
  | nil => rfl
  | cons r l ih => simp [covered, ih]

/-- C1: for every fresh context whose layout succeeds on a paragraph of
length N ≥ 1, the shape runs produced by itemization cover every scalar
exactly once — the multiset of logical positions over all shape runs is a
permutation of {0, …, N−1}, and the run lengths sum to N. -/
theorem C1_itemization_coverage (ext : Externals) (rq : Raqm)
    (hruns : rq.runs = none) (hN : 1 ≤ rq.text.length)
    (hok : (raqm_layout ext rq).1 = true) :
    ((((raqm_layout ext rq).2).runs.getD []).flatMap covered).Perm
      (List.range rq.text.length) ∧
    ((((raqm_layout ext rq).2).runs.getD []).map ShapeRun.len).sum =
      rq.text.length := by
  obtain ⟨hne, hml⟩ := (layout_ok_iff ext rq).mp hok
  rw [layout_state_of_ok ext rq hok, shape_runs_eq,
    itemize_runs_of_none ext rq hruns hml]
  simp only [Option.map_some', Option.getD_some]
  rw [flatMap_covered_map_setBuf]
  set lv := (_raqm_itemize_levels ext rq).2 with hlv
  set S := ((_raqm_resolve_scripts ext rq).2).scripts.getD [] with hS
  set D := _raqm_hb_dir ((_raqm_resolve_scripts ext rq).2) with hD
  have hcov : (((reorderRuns lv).flatMap
      (fun r => splitRun S (D r.level) r.pos r.len)).flatMap covered).Perm
      (List.range rq.text.length) := by
    rw [List.flatMap_assoc]
    have h1 : ∀ r ∈ reorderRuns lv,
        ((splitRun S (D r.level) r.pos r.len).flatMap covered).Perm
          (coveredB r) := by
      intro r hr
      have hmem : r ∈ spans 0 lv := ((reorderRuns_perm lv).mem_iff).mp hr
      exact splitRun_covered S (D r.level) r.pos r.len (spans_len_pos 0 lv r hmem)
    refine (flatMap_perm_congr _ _ _ h1).trans ?_
    refine ((reorderRuns_perm lv).flatMap_right coveredB).trans ?_
    rw [spans_covered 0 lv, itemize_levels_length ext rq, List.range_eq_range']
  refine ⟨hcov, ?_⟩
  have hlen := hcov.length_eq
  rw [flatMap_covered_length] at hlen
  simpa using hlen

/-- Witness for C1 at a concrete input: a fresh two-scalar context with
levels 0,1 — the two shape runs cover {0, 1} exactly once. -/
theorem C1_itemization_coverage_witness :
    (({ raqm_create with text := [97, 0x5D0] } : Raqm).runs = none ∧
     1 ≤ ({ raqm_create with text := [97, 0x5D0] } : Raqm).text.length ∧
     (raqm_layout extC1 { raqm_create with text := [97, 0x5D0] }).1 = true) ∧
    (((((raqm_layout extC1 { raqm_create with text := [97, 0x5D0] }).2).runs.getD
        []).flatMap covered).Perm
      (List.range ({ raqm_create with text := [97, 0x5D0] } : Raqm).text.length) ∧
     ((((raqm_layout extC1 { raqm_create with text := [97, 0x5D0] }).2).runs.getD
        []).map ShapeRun.len).sum =
      ({ raqm_create with text := [97, 0x5D0] } : Raqm).text.length) :=
  ⟨⟨rfl, by decide, by decide⟩,
   C1_itemization_coverage extC1 { raqm_create with text := [97, 0x5D0] }
     rfl (by decide) (by decide)⟩

/-! ## Forward splitter properties and claim C7 (TTB short-circuit) -/

lemma goF_props (scripts : List Script) (d : HBDir) (pos : Nat) :
    ∀ n cur j, cur.pos + cur.len = pos + j → cur.direction = d →
      (∀ t, t < cur.len → scripts.getD (cur.pos + t) Script.invalid = cur.script) →
      ((∀ r ∈ goF scripts d pos cur j n, r.direction = d ∧
          ∀ t, t < r.len → scripts.getD (r.pos + t) Script.invalid = r.script) ∧
       List.Chain' (fun x y => x.script ≠ y.script) (goF scripts d pos cur j n) ∧
       ∀ r0, (goF scripts d pos cur j n).head? = some r0 → r0.script = cur.script) := by
  intro n
  induction n with
  | zero =>
      intro cur j _ hdir huni
      refine ⟨?_, ?_, ?_⟩
      · intro r hr
        simp [goF] at hr
        subst hr
        exact ⟨hdir, huni⟩
      · simp [goF]
      · intro r0 hr0
        simp [goF] at hr0
        subst hr0
        rfl
  | succ n ih =>
      intro cur j hinv hdir huni
      unfold goF
      dsimp only
      split_ifs with hne
      · have huni' : ∀ t, t < (1 : Nat) →
            scripts.getD (pos + j + t) Script.invalid =
              scripts.getD (pos + j) Script.invalid := by
          intro t ht
          have ht0 : t = 0 := by omega
          subst ht0
          rfl
        obtain ⟨ihmem, ihchain, ihhead⟩ := ih (⟨pos + j, 1, d,
          scripts.getD (pos + j) Script.invalid, none⟩ : ShapeRun) (j + 1) rfl rfl huni'
        refine ⟨?_, ?_, ?_⟩
        · intro r hr
          rcases List.mem_cons.mp hr with rfl | hr'
          · exact ⟨hdir, huni⟩
          · exact ihmem r hr'
        · refine List.chain'_cons'.mpr ⟨?_, ihchain⟩
          intro y hy
          have hy' := ihhead y (by simpa using hy)
          rw [hy']
          exact fun hcon => hne hcon.symm
        · intro r0 hr0
          simp at hr0
          subst hr0
          rfl
      · have hs : scripts.getD (pos + j) Script.invalid = cur.script := by
          by_contra hcon
          exact hne hcon
        have huni' : ∀ t, t < cur.len + 1 →
            scripts.getD (cur.pos + t) Script.invalid = cur.script := by
          intro t ht
          rcases Nat.lt_or_ge t cur.len with h | h
          · exact huni t h
          · have ht' : t = cur.len := by omega
            subst ht'
            rw [hinv]
            exact hs
        obtain ⟨ihmem, ihchain, ihhead⟩ := ih { cur with len := cur.len + 1 } (j + 1)
          (by show cur.pos + (cur.len + 1) = pos + (j + 1); omega)
          hdir huni'
        exact ⟨ihmem, ihchain, fun r0 hr0 => ihhead r0 hr0⟩

lemma splitRunFwd_props (scripts : List Script) (d : HBDir) (pos len : Nat) :
    (∀ r ∈ splitRunFwd scripts d pos len, r.direction = d ∧
      ∀ t, t < r.len → scripts.getD (r.pos + t) Script.invalid = r.script) ∧
    List.Chain' (fun x y => x.script ≠ y.script) (splitRunFwd scripts d pos len) := by
  have h := goF_props scripts d pos len
    (⟨pos, 0, d, scripts.getD pos Script.invalid, none⟩ : ShapeRun) 0
    (by simp) rfl (by intro t ht; simp at ht)
  exact ⟨h.1, h.2.1⟩

lemma spansGo_replicate (v : Nat) :
    ∀ m start c, spansGo start v c (List.replicate m v) =
      [⟨start, c + m, v⟩] := by
  intro m
  induction m with
  | zero => intro start c; simp [spansGo]
  | succ m ih =>
      intro start c
      rw [List.replicate_succ]
      unfold spansGo
      rw [if_pos rfl, ih]
      have h : c + 1 + m = c + (m + 1) := by omega
      rw [h]

lemma reorderRuns_replicate_zero (N : Nat) (h : 1 ≤ N) :
    reorderRuns (List.replicate N 0) = [⟨0, N, 0⟩] := by
  obtain ⟨m, rfl⟩ : ∃ m, N = m + 1 := ⟨N - 1, by omega⟩
  have hs : spans 0 (List.replicate (m + 1) 0) = [⟨0, m + 1, 0⟩] := by
    rw [List.replicate_succ]
    show spansGo 0 0 1 (List.replicate m 0) = _
    rw [spansGo_replicate]
    have h1 : 1 + m = m + 1 := by omega
    rw [h1]
  unfold reorderRuns visualReorder
  rw [hs]
  rfl

lemma itemize_levels_ttb (ext : Externals) (rq : Raqm)
    (h : rq.base_dir = Dir4.ttb) :
    _raqm_itemize_levels ext rq = (0, List.replicate rq.text.length 0) := by
  unfold _raqm_itemize_levels
  rw [if_pos h]

/-- C7: with base direction TTB, the level array is all zeros, one bidi
run covers the whole paragraph, every shape run has direction TTB, and the
shape runs are exactly the maximal same-script spans of the resolved
script array: they tile 0 … N−1 in order, each is script-uniform, and
adjacent runs have different scripts. -/
theorem C7_ttb_shortcircuit (ext : Externals) (rq : Raqm)
    (hbase : rq.base_dir = Dir4.ttb) (hruns : rq.runs = none)
    (hN : 1 ≤ rq.text.length) :
    (raqm_layout ext rq).1 = true ∧
    (_raqm_itemize_levels ext rq).2 = List.replicate rq.text.length 0 ∧
    reorderRuns (List.replicate rq.text.length 0) = [⟨0, rq.text.length, 0⟩] ∧
    (∀ r ∈ ((raqm_layout ext rq).2).runs.getD [], r.direction = HBDir.ttb) ∧
    (((raqm_layout ext rq).2).runs.getD []).flatMap covered =
      List.range rq.text.length ∧
    (∀ r ∈ ((raqm_layout ext rq).2).runs.getD [], ∀ t, t < r.len →
      (((_raqm_resolve_scripts ext rq).2).scripts.getD []).getD (r.pos + t)
        Script.invalid = r.script) ∧
    List.Chain' (fun x y => x.script ≠ y.script)
      (((raqm_layout ext rq).2).runs.getD []) := by
  have hlev := itemize_levels_ttb ext rq hbase
  have hml : ¬ (_raqm_itemize_levels ext rq).1 < 0 := by rw [hlev]; simp
  have hok : (raqm_layout ext rq).1 = true :=
    (layout_ok_iff ext rq).mpr ⟨by omega, hml⟩
  have hdir : _raqm_hb_dir ((_raqm_resolve_scripts ext rq).2) 0 = HBDir.ttb := by
    simp [_raqm_hb_dir, (resolve_preserves ext rq).2.1, hbase]
  have hrs : ((raqm_layout ext rq).2).runs.getD [] =
      (splitRunFwd (((_raqm_resolve_scripts ext rq).2).scripts.getD [])
        HBDir.ttb 0 rq.text.length).map
        (setBuf ext ((_raqm_itemize ext rq).2).text
          ((_raqm_itemize ext rq).2).features ((_raqm_itemize ext rq).2).font) := by
    rw [layout_state_of_ok ext rq hok, shape_runs_eq,
      itemize_runs_of_none ext rq hruns hml]
    simp only [Option.map_some', Option.getD_some]
    congr 1
    rw [show (_raqm_itemize_levels ext rq).2 = List.replicate rq.text.length 0 by
        rw [hlev],
      reorderRuns_replicate_zero rq.text.length hN]
    simp [splitRun, hdir]
  obtain ⟨hmem, hchain⟩ := splitRunFwd_props
    (((_raqm_resolve_scripts ext rq).2).scripts.getD []) HBDir.ttb 0 rq.text.length
  refine ⟨hok, by rw [hlev], reorderRuns_replicate_zero rq.text.length hN,
    ?_, ?_, ?_, ?_⟩
  · intro r hr
    rw [hrs] at hr
    obtain ⟨r0, hr0, rfl⟩ := List.mem_map.mp hr
    exact (hmem r0 hr0).1
  · rw [hrs, flatMap_covered_map_setBuf, splitRunFwd_covered, List.range_eq_range']
  · intro r hr t ht
    rw [hrs] at hr
    obtain ⟨r0, hr0, rfl⟩ := List.mem_map.mp hr
    exact (hmem r0 hr0).2 t ht
  · rw [hrs, List.chain'_map]
    exact hchain

/-- Witness for C7 at a concrete input: a TTB paragraph of three scalars
with two script spans (the bidi stage is never consulted: the witness's
FriBidi stub reports failure, yet TTB layout succeeds). -/
theorem C7_ttb_shortcircuit_witness :
    (rqC7.base_dir = Dir4.ttb ∧ rqC7.runs = none ∧ 1 ≤ rqC7.text.length) ∧
    (raqm_layout extC7 rqC7).1 = true ∧
    (_raqm_itemize_levels extC7 rqC7).2 = List.replicate rqC7.text.length 0 ∧
    reorderRuns (List.replicate rqC7.text.length 0) = [⟨0, rqC7.text.length, 0⟩] ∧
    (∀ r ∈ ((raqm_layout extC7 rqC7).2).runs.getD [], r.direction = HBDir.ttb) ∧
    (((raqm_layout extC7 rqC7).2).runs.getD []).flatMap covered =
      List.range rqC7.text.length ∧
    (∀ r ∈ ((raqm_layout extC7 rqC7).2).runs.getD [], ∀ t, t < r.len →
      (((_raqm_resolve_scripts extC7 rqC7).2).scripts.getD []).getD (r.pos + t)
        Script.invalid = r.script) ∧
    List.Chain' (fun x y => x.script ≠ y.script)
      (((raqm_layout extC7 rqC7).2).runs.getD []) :=
  ⟨⟨rfl, rfl, by decide⟩, C7_ttb_shortcircuit extC7 rqC7 rfl rfl (by decide)⟩

/-! ## Claim C4: idempotent layout -/

lemma itemize_preserves (ext : Externals) (rq : Raqm) :
    ((_raqm_itemize ext rq).2).text = rq.text ∧
    ((_raqm_itemize ext rq).2).base_dir = rq.base_dir ∧
    ((_raqm_itemize ext rq).2).features = rq.features ∧
    ((_raqm_itemize ext rq).2).font = rq.font ∧
    ((_raqm_itemize ext rq).2).glyphs = rq.glyphs := by
  obtain ⟨h1, h2, h3, h4, _, h6⟩ := resolve_preserves ext rq
  rcases hpair : _raqm_itemize_levels ext rq with ⟨ml, lv⟩
  simp only [_raqm_itemize, hpair]
  split_ifs
  · exact ⟨rfl, rfl, rfl, rfl, rfl⟩
  · exact ⟨h1, h2, h3, h4, h6⟩

lemma resolve_scripts_isSome (ext : Externals) (rq : Raqm) :
    ∃ S, ((_raqm_resolve_scripts ext rq).2).scripts = some S := by
  unfold _raqm_resolve_scripts
  cases hs : rq.scripts with
  | none => exact ⟨_, rfl⟩
  | some s => exact ⟨s, by simp [hs]⟩

lemma itemize_scripts_some (ext : Externals) (rq : Raqm)
    (hml : ¬ (_raqm_itemize_levels ext rq).1 < 0) :
    ∃ S, ((_raqm_itemize ext rq).2).scripts = some S := by
  obtain ⟨S, hS⟩ := resolve_scripts_isSome ext rq
  rcases hpair : _raqm_itemize_levels ext rq with ⟨ml, lv⟩
  rw [hpair] at hml
  simp only [_raqm_itemize, hpair]
  rw [if_neg (by simpa using hml)]
  exact ⟨S, hS⟩

lemma itemize_runs_some (ext : Externals) (rq : Raqm)
    (hml : ¬ (_raqm_itemize_levels ext rq).1 < 0) :
    ∃ R, ((_raqm_itemize ext rq).2).runs = some R := by
  rcases hpair : _raqm_itemize_levels ext rq with ⟨ml, lv⟩
  rw [hpair] at hml
  simp only [_raqm_itemize, hpair]
  rw [if_neg (by simpa using hml)]
  exact ⟨_, rfl⟩

lemma itemize_levels_congr (ext : Externals) (rq' rq : Raqm)
    (h1 : rq'.text = rq.text) (h2 : rq'.base_dir = rq.base_dir) :
    _raqm_itemize_levels ext rq' = _raqm_itemize_levels ext rq := by
  unfold _raqm_itemize_levels
  rw [h1, h2]

lemma itemize_state_on_laid (ext : Externals) (rq' : Raqm)
    (S : List Script) (R : List ShapeRun)
    (hs : rq'.scripts = some S) (hr : rq'.runs = some R)
    (hml : ¬ (_raqm_itemize_levels ext rq').1 < 0) :
    (_raqm_itemize ext rq').2 = rq' ∧ (_raqm_itemize ext rq').1 = true := by
  rcases hpair : _raqm_itemize_levels ext rq' with ⟨ml, lv⟩
  rw [hpair] at hml
  simp only [_raqm_itemize, _raqm_resolve_scripts, hpair, hs]
  rw [if_neg (by simpa using hml)]
  refine ⟨?_, rfl⟩
  rw [hr]
  simp only [Option.getD_some]
  rw [← hr, ← hs]

lemma setBuf_idem (ext : Externals) (t : List Nat) (fs : List Feature)
    (fo : Option Font) (r : ShapeRun) :
    setBuf ext t fs fo (setBuf ext t fs fo r) = setBuf ext t fs fo r := rfl

lemma map_setBuf_idem (ext : Externals) (t : List Nat) (fs : List Feature)
    (fo : Option Font) :
    ∀ l : List ShapeRun,
      (l.map (setBuf ext t fs fo)).map (setBuf ext t fs fo) =
        l.map (setBuf ext t fs fo) := by
  intro l
  induction l with
  | nil => rfl
  | cons r l ih => simp only [List.map_cons, setBuf_idem, ih]

lemma getGlyphs_fst_congr (x y : Raqm) (h : x.runs = y.runs) :
    (raqm_get_glyphs x).1 = (raqm_get_glyphs y).1 := by
  unfold raqm_get_glyphs
  rw [h]

/-- C4: once layout has succeeded, calling `raqm_get_glyphs` and then
`raqm_layout` again on the same context (no intervening mutation) succeeds
again, and the glyph array returned by `raqm_get_glyphs` afterwards is
identical to the first one: the stale script array short-circuits
`_raqm_resolve_scripts`, the stale run list is kept (`rq->runs` is only
assigned when NULL), and re-shaping those runs with the same text,
features and font rebuilds the same buffers. -/
theorem C4_layout_idempotent (ext : Externals) (rq : Raqm)
    (hok : (raqm_layout ext rq).1 = true) :
    (raqm_layout ext ((raqm_get_glyphs ((raqm_layout ext rq).2)).2)).1 = true ∧
    (raqm_get_glyphs
        ((raqm_layout ext ((raqm_get_glyphs ((raqm_layout ext rq).2)).2)).2)).1 =
      (raqm_get_glyphs ((raqm_layout ext rq).2)).1 := by
  obtain ⟨hne, hml⟩ := (layout_ok_iff ext rq).mp hok
  have hA_eq := layout_state_of_ok ext rq hok
  obtain ⟨ht, hb, hf, hfo, _⟩ := itemize_preserves ext rq
  -- fields of the laid-out state A (shape only touches runs)
  have hAtext : ((raqm_layout ext rq).2).text = rq.text := by rw [hA_eq]; exact ht
  have hAbase : ((raqm_layout ext rq).2).base_dir = rq.base_dir := by
    rw [hA_eq]; exact hb
  have hAfeat : ((raqm_layout ext rq).2).features = rq.features := by
    rw [hA_eq]; exact hf
  have hAfont : ((raqm_layout ext rq).2).font = rq.font := by rw [hA_eq]; exact hfo
  obtain ⟨S, hS⟩ := itemize_scripts_some ext rq hml
  have hAscripts : ((raqm_layout ext rq).2).scripts = some S := by
    rw [hA_eq]; exact hS
  obtain ⟨R, hR⟩ := itemize_runs_some ext rq hml
  have hAruns : ((raqm_layout ext rq).2).runs =
      some (R.map (setBuf ext rq.text rq.features rq.font)) := by
    rw [hA_eq, shape_runs_eq, hR, Option.map_some', ht, hf, hfo]
  -- the state after get_glyphs: only the glyphs field changes
  have hA'runs : ((raqm_get_glyphs ((raqm_layout ext rq).2)).2).runs =
      ((raqm_layout ext rq).2).runs := rfl
  have hA'text : ((raqm_get_glyphs ((raqm_layout ext rq).2)).2).text =
      ((raqm_layout ext rq).2).text := rfl
  have hA'base : ((raqm_get_glyphs ((raqm_layout ext rq).2)).2).base_dir =
      ((raqm_layout ext rq).2).base_dir := rfl
  have hA'feat : ((raqm_get_glyphs ((raqm_layout ext rq).2)).2).features =
      ((raqm_layout ext rq).2).features := rfl
  have hA'font : ((raqm_get_glyphs ((raqm_layout ext rq).2)).2).font =
      ((raqm_layout ext rq).2).font := rfl
  have hA'scripts : ((raqm_get_glyphs ((raqm_layout ext rq).2)).2).scripts =
      ((raqm_layout ext rq).2).scripts := rfl
  have hlev' : _raqm_itemize_levels ext ((raqm_get_glyphs ((raqm_layout ext rq).2)).2) =
      _raqm_itemize_levels ext rq :=
    itemize_levels_congr ext _ rq (hA'text.trans hAtext) (hA'base.trans hAbase)
  have hml' : ¬ (_raqm_itemize_levels ext
      ((raqm_get_glyphs ((raqm_layout ext rq).2)).2)).1 < 0 := by
    rw [hlev']; exact hml
  have hok2 : (raqm_layout ext ((raqm_get_glyphs ((raqm_layout ext rq).2)).2)).1 =
      true := by
    refine (layout_ok_iff ext _).mpr ⟨?_, hml'⟩
    rw [hA'text.trans hAtext]
    exact hne
  refine ⟨hok2, ?_⟩
  -- the second layout leaves the run list unchanged
  have hit2 := itemize_state_on_laid ext ((raqm_get_glyphs ((raqm_layout ext rq).2)).2)
    S (R.map (setBuf ext rq.text rq.features rq.font))
    (hA'scripts.trans hAscripts) (hA'runs.trans hAruns) hml'
  have hruns2 : ((raqm_layout ext ((raqm_get_glyphs ((raqm_layout ext rq).2)).2)).2).runs =
      ((raqm_get_glyphs ((raqm_layout ext rq).2)).2).runs := by
    rw [layout_state_of_ok ext _ hok2, shape_runs_eq, hit2.1,
      hA'runs.trans hAruns]
    simp only [Option.map_some']
    rw [hA'text.trans hAtext, hA'feat.trans hAfeat, hA'font.trans hAfont,
      map_setBuf_idem]
  exact getGlyphs_fst_congr _ _ (hruns2.trans hA'runs)

theorem C4_layout_idempotent_witness :
    (raqm_layout extC4 rqC4).1 = true ∧
    ((raqm_layout extC4 ((raqm_get_glyphs ((raqm_layout extC4 rqC4).2)).2)).1 = true ∧
     (raqm_get_glyphs
         ((raqm_layout extC4
             ((raqm_get_glyphs ((raqm_layout extC4 rqC4).2)).2)).2)).1 =
       (raqm_get_glyphs ((raqm_layout extC4 rqC4).2)).1) :=
  ⟨by decide, C4_layout_idempotent extC4 rqC4 (by decide)⟩
